import Mathlib

/-!
# Verification of the KiCad zone-filler and interactive-router core

Shallow embedding of `ZONE_FILLER` (zone_filler.cpp), `ZONE_FILLER_TOOL`
(zone_filler_tool.cpp) and `PNS::ROUTER` (pns_router.cpp).  Geometry
collaborators that live outside these files (`SHAPE_POLY_SET` boolean and
offset operations, `SHAPE_LINE_CHAIN` hit tests, the connectivity service,
the commit object) are modelled as explicit parameters: the embedded
functions record exactly which collaborator calls the source makes, with
which arguments, in which order.

Machine integers: the source uses `int` (32-bit) coordinates well inside
range for board data; they are modelled as unbounded `Int`, and C++
truncating division as `Int.tdiv`.
-/

set_option maxHeartbeats 1000000

namespace KicadCore

/-- A 2-D point (`VECTOR2I` / `wxPoint`). -/
abbrev Pt := Int × Int

/-- A closed polyline contour (`SHAPE_LINE_CHAIN`): its list of vertices. -/
abbrev Contour := List Pt

/-- A polygon with holes (`SHAPE_POLY_SET::POLYGON`): the first contour is
the outline, the rest are holes. -/
abbrev Poly := List Contour

/-- The sample point the filler tests against the board outline:
`poly.Polygon( idx ).front().CPoint( 0 )` — first vertex of the first
contour. -/
def samplePt (p : Poly) : Pt := p.headI.headI

/-- All vertices of a polygon (used only to state the claim's own reading
"the polygon has no point inside the board outline"). -/
def allPoints (p : Poly) : List Pt := p.flatten

/-! ## Island removal post-processing

Embedding of the serial post-processing loop of `ZONE_FILLER::Fill`
(zone_filler.cpp lines 245–307): per zone and layer, the isolated-island
indices delivered by the connectivity service are sorted in descending
order and the corresponding polygons deleted according to the zone's
island-removal mode; for zero-net zones, polygons outside the board
outline are dropped. -/

/-- Enum `ISLAND_REMOVAL_MODE` (never / always / below-area-threshold). -/
inductive IslandRemovalMode
  | NEVER
  | ALWAYS
  | AREA
deriving DecidableEq, Repr

open IslandRemovalMode

/-- External geometry collaborators used by the island-removal loop:
`m_boardOutline.Contains` and `SHAPE_LINE_CHAIN::Area` of a polygon's
outline contour. -/
structure IslandEnv where
  contains : Pt → Bool
  area : Contour → Int

/-- The source's deletion condition for one isolated island (zone with
net code > 0), zone_filler.cpp lines 268–271:
`mode == ALWAYS || (mode == AREA && poly.Outline(idx).Area() < minArea)
 || !m_boardOutline.Contains( poly.Polygon(idx).front().CPoint(0) )`. -/
def islandDelCond (env : IslandEnv) (mode : IslandRemovalMode) (minArea : Int)
    (p : Poly) : Bool :=
  mode = ALWAYS ∨ (mode = AREA ∧ env.area p.headI < minArea)
    ∨ ¬ env.contains (samplePt p)

/-- One iteration of the deletion loop: at island index `idx`, either
`poly.DeletePolygon( idx )` or `zone->SetIsIsland( layer, idx )`.
State is (current polygon list, island flags set so far). -/
def islandStep (env : IslandEnv) (mode : IslandRemovalMode) (minArea : Int)
    (st : List Poly × List Nat) (idx : Nat) : List Poly × List Nat :=
  if islandDelCond env mode minArea (st.1.getD idx []) then
    (st.1.eraseIdx idx, st.2)
  else
    (st.1, st.2 ++ [idx])

/-- Polygon-list component of `islandStep` (the island flags never feed
back into the deletions). -/
def islandStepP (env : IslandEnv) (mode : IslandRemovalMode) (minArea : Int)
    (ps : List Poly) (idx : Nat) : List Poly :=
  if islandDelCond env mode minArea (ps.getD idx []) then ps.eraseIdx idx else ps

/-- Insert into a descending-sorted list (model of one step of
`std::sort( islands.begin(), islands.end(), std::greater<int>() )`). -/
def insertDesc (x : Nat) : List Nat → List Nat
  | [] => [x]
  | y :: ys => if y ≤ x then x :: y :: ys else y :: insertDesc x ys

/-- Descending insertion sort: model of the `std::sort` with
`std::greater<int>` at zone_filler.cpp line 254. -/
def sortDesc : List Nat → List Nat
  | [] => []
  | x :: xs => insertDesc x (sortDesc xs)

/-- The net-code > 0 island-removal pass for one (zone, layer): sort the
island indices descending, then fold the delete-or-flag step over them
(zone_filler.cpp lines 254, 266–275).  Returns the surviving polygon list
and the indices flagged as kept islands. -/
def removeIslandsNet (env : IslandEnv) (mode : IslandRemovalMode) (minArea : Int)
    (islands : List Nat) (polys : List Poly) : List Poly × List Nat :=
  (sortDesc islands).foldl (islandStep env mode minArea) (polys, [])

/-- The zero-net pass (zone_filler.cpp lines 286–295): walk the polygon
list, deleting any polygon that is empty or whose sample point is outside
the board outline. -/
def dropOutside (contains : Pt → Bool) : List Poly → List Poly
  | [] => []
  | p :: ps =>
    if p.isEmpty ∨ ¬ contains (samplePt p) then dropOutside contains ps
    else p :: dropOutside contains ps

/-- Survivor characterization, enumerating polygons from index `k`:
polygon at absolute index `k` survives unless `k` is an island index and
the deletion condition holds for it.  This is the declarative reading the
claims are compared against. -/
def keepFrom (env : IslandEnv) (mode : IslandRemovalMode) (minArea : Int)
    (S : List Nat) : Nat → List Poly → List Poly
  | _, [] => []
  | k, p :: ps =>
    if k ∈ S ∧ islandDelCond env mode minArea p = true then
      keepFrom env mode minArea S (k + 1) ps
    else
      p :: keepFrom env mode minArea S (k + 1) ps

/-- The claim's own deletion condition ("…or the polygon has NO POINT
inside the board outline"), written from the claim text for comparison
with the source's `islandDelCond`. -/
def claimDelCond (env : IslandEnv) (mode : IslandRemovalMode) (minArea : Int)
    (p : Poly) : Bool :=
  mode = ALWAYS ∨ (mode = AREA ∧ env.area p.headI < minArea)
    ∨ (allPoints p).all (fun pt => ¬ env.contains pt)

/-- Survivors as the claim reads them: delete exactly the islands whose
`claimDelCond` holds. -/
def claimKeepFrom (env : IslandEnv) (mode : IslandRemovalMode) (minArea : Int)
    (S : List Nat) : Nat → List Poly → List Poly
  | _, [] => []
  | k, p :: ps =>
    if k ∈ S ∧ claimDelCond env mode minArea p = true then
      claimKeepFrom env mode minArea S (k + 1) ps
    else
      p :: claimKeepFrom env mode minArea S (k + 1) ps

/-! ## `ZONE_FILLER::Fill` orchestration

State-passing embedding of `ZONE_FILLER::Fill` (zone_filler.cpp lines
104–391) together with the mutable fill state of each `ZONE_CONTAINER`.
Zones are identified by their index in the board's zone list; the C++
code mutates zone objects through pointers, which is modelled as
read-record / update-record / write-back on the indexed list.  The
parallel fan-out of the per-(zone,layer) fill work is linearized: each
unit performs the same mutations in both schedules, and the work
distribution itself is modelled separately (see the worker-pool model
below).  The commit collaborator (`BOARD_COMMIT`) is modelled from the
spec: `Modify(item)` snapshots the item's state when called, `Revert()`
restores every snapshot. -/

/-- The mutable per-zone record (`ZONE_CONTAINER`): immutable fill
parameters plus the fill state that `ZONE_FILLER::Fill` mutates.
Per-layer stores are association lists, most recent binding first. -/
structure ZoneSt where
  isKeepout : Bool
  layers : List Nat
  netCode : Int
  onCopper : Bool
  minIslandArea : Int
  islandMode : IslandRemovalMode
  isFilled : Bool
  filled : List (Nat × List Poly)
  raw : List (Nat × List Poly)
  hashes : List (Nat × Int)
  needRefill : Bool
  useThickness : Bool
  islandFlags : List (Nat × List Nat)
  filledArea : Int
  triangulationValid : Bool
deriving DecidableEq, Repr

instance : Inhabited ZoneSt :=
  ⟨{ isKeepout := false, layers := [], netCode := 0, onCopper := true,
     minIslandArea := 0, islandMode := IslandRemovalMode.NEVER,
     isFilled := false, filled := [], raw := [], hashes := [],
     needRefill := false, useThickness := false, islandFlags := [],
     filledArea := 0, triangulationValid := false }⟩

/-- Read a per-layer association list. -/
def getL {α : Type} (m : List (Nat × α)) (l : Nat) (d : α) : α :=
  match m.find? (fun q => q.1 == l) with
  | some q => q.2
  | none => d

/-- External collaborators of `ZONE_FILLER::Fill`, passed explicitly:
the connectivity lock, the progress reporter, board-outline queries, the
per-unit geometric fill computation (`fillSingleZone`, embedded
separately), the polygon-set hash, the connectivity service's island
analysis, and the out-of-date confirmation dialog. -/
structure FillEnv where
  lockOk : Bool
  hasReporter : Bool
  cancel : Nat → Bool
  brdOutlinesValid : Bool
  boardContains : Pt → Bool
  outlineArea : Contour → Int
  useNoOutlineInFill : Bool
  fillFn : ZoneSt → Nat → List Poly × List Poly
  hashFn : List Poly → Int
  islandsOf : Nat → Nat → Option (List Nat)
  dialogCancel : Bool

/-- The filler's state: the board's zone list, the commit collaborator's
recorded (zone index, snapshot) pairs, and a counter numbering the
`IsCancelled()` polls made so far. -/
structure FillSt where
  zones : List ZoneSt
  commits : List (Nat × ZoneSt)
  ticks : Nat
deriving DecidableEq, Repr

def getZone (st : FillSt) (i : Nat) : ZoneSt := st.zones.getD i default

def setZone (st : FillSt) (i : Nat) (z : ZoneSt) : FillSt :=
  { st with zones := st.zones.set i z }

/-- Model of `m_commit->Modify( zone )`: record a snapshot of the zone's current
state (modelled from the spec's `CommitTransaction` collaborator). -/
def modifyZone (st : FillSt) (i : Nat) : FillSt :=
  { st with commits := st.commits ++ [(i, getZone st i)] }

/-- One `m_progressReporter && m_progressReporter->IsCancelled()` poll. -/
def checkCancel (env : FillEnv) (st : FillSt) : Bool × FillSt :=
  (env.hasReporter && env.cancel st.ticks, { st with ticks := st.ticks + 1 })

/-- Model of `zone->BuildHashValue( layer )` for each layer: stores the hash of
the layer's current filled polygons (staleness detection input). -/
def buildHashesFold (env : FillEnv) (ls : List Nat) (z : ZoneSt) : ZoneSt :=
  ls.foldl
    (fun acc l => { acc with hashes := (l, env.hashFn (getL acc.filled l [])) :: acc.hashes })
    z

/-- Model of `zone->UnFill()` (modelled from the spec: the previous filled data is
cleared; the staleness hashes just rebuilt are kept for the check pass). -/
def unfillZone (z : ZoneSt) : ZoneSt :=
  { z with isFilled := false, filled := [], raw := [], islandFlags := [] }

/-- The per-zone preparation step of `Fill` (zone_filler.cpp lines
138–161): skip keepouts; `Modify`; `BuildHashValue` per layer while
accumulating the (zone, layer) work units; remember the zone for the
island list; `UnFill`. -/
def prepZone (env : FillEnv) (st : FillSt) (i : Nat) :
    FillSt × List (Nat × Nat) × List Nat :=
  let z := getZone st i
  if z.isKeepout then (st, [], [])
  else
    let st1 := modifyZone st i
    let st2 := setZone st1 i (unfillZone (buildHashesFold env z.layers z))
    (st2, z.layers.map (fun l => (i, l)), [i])

/-- The preparation loop over the zones passed to `Fill`. -/
def prepZones (env : FillEnv) (idxs : List Nat) (st : FillSt) :
    FillSt × List (Nat × Nat) × List Nat :=
  idxs.foldl
    (fun acc i =>
      let r := prepZone env acc.1 i
      (r.1, acc.2.1 ++ r.2.1, acc.2.2 ++ r.2.2))
    (st, [], [])

/-- One iteration of `fill_lambda` (zone_filler.cpp lines 173–198):
`SetFilledPolysUseThickness`, compute the fill (`fillSingleZone`, which
also clears the needs-refill flag), store the raw and final polygon
lists under the zone's lock, mark the zone filled. -/
def fillUnit (env : FillEnv) (st : FillSt) (u : Nat × Nat) : FillSt :=
  let z := getZone st u.1
  let z1 := { z with useThickness := !env.useNoOutlineInFill }
  let r := env.fillFn z1 u.2
  setZone st u.1
    { z1 with needRefill := false, raw := (u.2, r.1) :: z1.raw,
              filled := (u.2, r.2) :: z1.filled, isFilled := true }

/-- The fill work loop with its per-unit cancellation poll (linearized
`fill_lambda`; a cancellation breaks out of the loop). -/
def workLoop (env : FillEnv) : List (Nat × Nat) → FillSt → FillSt
  | [], st => st
  | u :: us, st =>
    let st1 := fillUnit env st u
    let c := checkCancel env st1
    if c.1 then c.2 else workLoop env us c.2

/-- One (zone, layer) step of the island-removal pass (zone_filler.cpp
lines 247–302): skip when the connectivity service reported no entry for
the layer; otherwise run the net / zero-net pruning, store the pruned
polygons and island flags, recompute the filled area, and accumulate the
out-of-date flag for the check pass. -/
def islandZoneLayer (env : FillEnv) (aCheck : Bool) (i l : Nat)
    (st : FillSt) (ood : Bool) : FillSt × Bool :=
  match env.islandsOf i l with
  | none => (st, ood)
  | some islands =>
    let z := getZone st i
    let poly := getL z.filled l []
    let ienv : IslandEnv := { contains := env.boardContains, area := env.outlineArea }
    let pr :=
      if z.netCode > 0 then
        removeIslandsNet ienv z.islandMode z.minIslandArea islands poly
      else if env.brdOutlinesValid ∧ z.onCopper then
        (dropOutside env.boardContains poly, [])
      else (poly, [])
    let z2 := { z with filled := (l, pr.1) :: z.filled,
                       islandFlags := (l, pr.2) :: z.islandFlags,
                       filledArea := (pr.1.map (fun p => ienv.area p.headI)).sum }
    let ood2 := ood || (aCheck && !(getL z.hashes l 0 == env.hashFn pr.1))
    (setZone st i z2, ood2)

/-- The serial island-removal loop over all (zone, layer) units, with its
per-unit cancellation poll.  Returns (not-cancelled, state, out-of-date). -/
def islandLoop (env : FillEnv) (aCheck : Bool) :
    List (Nat × Nat) → FillSt → Bool → Bool × FillSt × Bool
  | [], st, ood => (true, st, ood)
  | u :: us, st, ood =>
    let r := islandZoneLayer env aCheck u.1 u.2 st ood
    let c := checkCancel env r.1
    if c.1 then (false, c.2, r.2) else islandLoop env aCheck us c.2 r.2

/-- The (zone, layer) units the island pass visits: every layer of every
zone in the island list. -/
def islandUnits (st : FillSt) (islIdxs : List Nat) : List (Nat × Nat) :=
  islIdxs.flatMap (fun i => (getZone st i).layers.map (fun l => (i, l)))

/-- The triangulation loop (`tri_lambda`, linearized):
`CacheTriangulation` per zone with its cancellation poll. -/
def triLoop (env : FillEnv) : List Nat → FillSt → FillSt
  | [], st => st
  | i :: rest, st =>
    let z := getZone st i
    let st1 := setZone st i { z with triangulationValid := true }
    let c := checkCancel env st1
    if c.1 then c.2 else triLoop env rest c.2

/-- The final cancellation poll of `Fill` (zone_filler.cpp lines
379–390): one last `IsCancelled` check after the triangulation phase,
then success. -/
def fillFinish (env : FillEnv) (st : FillSt) : Bool × FillSt :=
  if (checkCancel env st).1 then (false, (checkCancel env st).2)
  else (true, (checkCancel env st).2)

/-- The tail of `Fill` after the island-removal loop: abort if the loop
was cancelled; in check mode with out-of-date fills, abort if the user
declines the refill dialog; otherwise triangulate and finish
(zone_filler.cpp lines 304–390). -/
def fillPost (env : FillEnv) (aCheck : Bool) (islIdxs : List Nat)
    (il : Bool × FillSt × Bool) : Bool × FillSt :=
  if !il.1 then (false, il.2.1)
  else if aCheck && il.2.2 && env.dialogCancel then (false, il.2.1)
  else fillFinish env (triLoop env islIdxs il.2.1)

/-- The body of `Fill` after zone preparation: the fill work loop, the
two cancellation polls around the connectivity island analysis, the
island-removal loop, and the tail (zone_filler.cpp lines 163–390). -/
def fillMain (env : FillEnv) (aCheck : Bool) (toFill : List (Nat × Nat))
    (islIdxs : List Nat) (st1 : FillSt) : Bool × FillSt :=
  if (checkCancel env (workLoop env toFill st1)).1 then
    (false, (checkCancel env (workLoop env toFill st1)).2)
  else if (checkCancel env (checkCancel env (workLoop env toFill st1)).2).1 then
    (false, (checkCancel env (checkCancel env (workLoop env toFill st1)).2).2)
  else
    fillPost env aCheck islIdxs
      (islandLoop env aCheck
        (islandUnits (checkCancel env (checkCancel env (workLoop env toFill st1)).2).2 islIdxs)
        (checkCancel env (checkCancel env (workLoop env toFill st1)).2).2 false)

/-- Model of `ZONE_FILLER::Fill` (zone_filler.cpp lines 104–391): try-lock the
connectivity lock (immediate failure if unavailable); prepare, hash and
unfill the non-keepout zones, registering each with the commit object
first; run the per-(zone,layer) fill work; run the connectivity island
analysis and the island-removal pass; in check mode, possibly ask the
user about out-of-date fills; triangulate; with cancellation polls at
the same points as the source, each of which aborts with `false`. -/
def zoneFill (env : FillEnv) (aCheck : Bool) (idxs : List Nat) (st0 : FillSt) :
    Bool × FillSt :=
  if !env.lockOk then (false, st0)
  else
    fillMain env aCheck (prepZones env idxs st0).2.1 (prepZones env idxs st0).2.2
      (prepZones env idxs st0).1

/-- Model of `BOARD_COMMIT::Revert()` (modelled from the spec): restore every
snapshot the filler registered via `Modify`. -/
def applyRevert (st : FillSt) : List ZoneSt :=
  st.commits.foldl (fun acc q => acc.set q.1 q.2) st.zones

/-- The indices registered with the commit object. -/
def regKeys (st : FillSt) : List Nat := st.commits.map Prod.fst

/-- Rollback invariant relating a state reached during `Fill` to the
initial state: the zone list keeps its length, the registered keys are
distinct, every snapshot registered with the commit object is the
corresponding zone's initial state (each zone is registered before its
first mutation), and unregistered zones are untouched. -/
def FillInv (init st : FillSt) : Prop :=
  st.zones.length = init.zones.length
    ∧ (regKeys st).Nodup
    ∧ (∀ q ∈ st.commits, q.2 = getZone init q.1)
    ∧ (∀ j, j ∉ regKeys st → getZone st j = getZone init j)

/-! ### Concrete instances used as witnesses -/

/-- A plain single-layer net zone with a stale fill. -/
def witZoneA : ZoneSt :=
  { (default : ZoneSt) with
    layers := [0], netCode := 1,
    isFilled := true, filled := [(0, [[[((0 : Int), (0 : Int))]]])] }

/-- A keepout zone. -/
def witZoneK : ZoneSt :=
  { (default : ZoneSt) with
    isKeepout := true, layers := [0], netCode := 2,
    isFilled := true, filled := [(0, [[[((3 : Int), (4 : Int))]]])] }

/-- A fill environment whose progress reporter reports cancellation at
every poll. -/
def witEnvCancel : FillEnv :=
  { lockOk := true, hasReporter := true, cancel := fun _ => true,
    brdOutlinesValid := true, boardContains := fun _ => true,
    outlineArea := fun _ => 0, useNoOutlineInFill := false,
    fillFn := fun _ _ => ([], []), hashFn := fun _ => 0,
    islandsOf := fun _ _ => none, dialogCancel := false }

/-- A fill environment in which the connectivity try-lock fails. -/
def witEnvNoLock : FillEnv := { witEnvCancel with lockOk := false }

/-- A fill environment with no reporter (no cancellation possible). -/
def witEnvQuiet : FillEnv := { witEnvCancel with hasReporter := false }

/-- A two-zone board state: one live zone, one keepout. -/
def witSt0 : FillSt := { zones := [witZoneA, witZoneK], commits := [], ticks := 0 }

/-- Board outline = the right half-plane, island areas all zero: a
concrete instantiation of the island-removal collaborators. -/
def c6Env : IslandEnv :=
  { contains := fun p => decide (0 ≤ p.1), area := fun _ => 0 }

/-- A polygon whose first vertex is outside the `c6Env` board outline
but whose other vertices are inside. -/
def c6Poly : Poly := [[((-1 : Int), (0 : Int)), (5, 0), (5, 5)]]

/-- Collaborators for the `ALWAYS` island-removal scenario: every point
inside the outline. -/
def c6EnvTrue : IslandEnv := { contains := fun _ => true, area := fun _ => 0 }

/-- The connected (non-island) region of the `ALWAYS` scenario. -/
def c6PolyA : Poly := [[((0 : Int), (0 : Int)), (2, 0), (2, 2)]]

/-- The isolated region of the `ALWAYS` scenario. -/
def c6PolyB : Poly := [[((10 : Int), (10 : Int)), (12, 10), (12, 12)]]

/-! ## Worker-pool model

`ZONE_FILLER::Fill` sizes its pool (zone_filler.cpp lines 163–166) as
`std::min<size_t>( std::thread::hardware_concurrency(), aZones.size() )`
and distributes work through the shared atomic counter `nextItem`:
each loop iteration of `fill_lambda` performs one atomic `nextItem++`
fetch.  The model runs an arbitrary interleaving of those fetches. -/

/-- The pool size the source computes: `min( hardware_concurrency,
aZones.size() )` — the length of the zone list passed to `Fill`,
keepouts included. -/
def parallelThreadCount (hwConcurrency : Nat) (idxs : List Nat) : Nat :=
  min hwConcurrency idxs.length

/-- Shared state of the work distribution: the atomic counter and the
(worker, unit-index) pairs processed so far, in fetch order. -/
structure PoolSt where
  counter : Nat
  processed : List (Nat × Nat)
deriving DecidableEq, Repr

/-- One scheduled loop iteration of `fill_lambda` by worker `w`: an
atomic `i = nextItem++` fetch; the fetched index is processed only while
it is within the work list (`i < toFill.size()`). -/
def poolStep (unitCount : Nat) (st : PoolSt) (w : Nat) : PoolSt :=
  { counter := st.counter + 1,
    processed :=
      if st.counter < unitCount then st.processed ++ [(w, st.counter)]
      else st.processed }

/-- Run an arbitrary interleaving of worker fetches against the shared
atomic counter. -/
def runSchedule (unitCount : Nat) (sched : List Nat) : PoolSt :=
  sched.foldl (poolStep unitCount) { counter := 0, processed := [] }

/-- A single zone on two copper layers: its work-unit count (2) differs
from the zone count (1). -/
def c8Zone2L : ZoneSt := { (default : ZoneSt) with layers := [0, 1], netCode := 1 }

def c8St : FillSt := { zones := [c8Zone2L], commits := [], ticks := 0 }

/-! ## `PNS::ROUTER` start-of-routing model

Embedding of `ROUTER::isStartingPointRoutable` and `ROUTER::StartRouting`
(pns_router.cpp lines 173–253).  The world (`NODE::CheckColliding`,
`QueryHoverItems`), the sizes settings and the placer strategies are
collaborators, passed as oracles in `RouterEnv`. -/

inductive RouterState
  | IDLE
  | ROUTE_TRACK
  | DRAG_SEGMENT
deriving DecidableEq, Repr

/-- Enum `ROUTER_MODE`: exactly the five modes of the source's `switch`. -/
inductive RouterMode
  | PNS_MODE_ROUTE_SINGLE
  | PNS_MODE_ROUTE_DIFF_PAIR
  | PNS_MODE_TUNE_SINGLE
  | PNS_MODE_TUNE_DIFF_PAIR
  | PNS_MODE_TUNE_DIFF_PAIR_SKEW
deriving DecidableEq, Repr

/-- The placer strategy objects `StartRouting` constructs per mode. -/
inductive PlacerKind
  | LINE_PLACER
  | DIFF_PAIR_PLACER
  | MEANDER_PLACER
  | DP_MEANDER_PLACER
  | MEANDER_SKEW_PLACER
deriving DecidableEq, Repr

/-- Enum `PNS::PNS_MODE` routing modes (`Settings().Mode()`). -/
inductive RoutingRM
  | RM_MarkObstacles
  | RM_Shove
  | RM_Walkaround
deriving DecidableEq, Repr

/-- The `LAYER_RANGE` of an item. -/
structure LayerRange where
  lo : Int
  hi : Int
deriving DecidableEq, Repr

/-- Model of `LAYER_RANGE::Overlaps( int aLayer )`. -/
def layerOverlaps (r : LayerRange) (l : Int) : Bool := r.lo ≤ l ∧ l ≤ r.hi

/-- An item returned by `QueryHoverItems` at the start point: the two
properties `isStartingPointRoutable` reads. -/
structure HoverItem where
  isRoutable : Bool
  layers : LayerRange
deriving DecidableEq, Repr

/-- The `aStartItem` argument: the two properties the dummy start
segment is built from (`Anchor(0)` and `Net()`). -/
structure StartItem where
  anchor : Pt
  net : Int
deriving DecidableEq, Repr

/-- The dummy start segment `SEGMENT( SEG( p, p ), net )` with its
width and layer, handed to `NODE::CheckColliding`. -/
structure DummySeg where
  a : Pt
  b : Pt
  net : Int
  width : Int
  layer : Int
deriving DecidableEq, Repr

/-- The collaborators `StartRouting` consults: the routing settings,
the hover query result at the start point, the optional start item, the
track width from the sizes settings, the world's collision test, and
the outcome of the selected placer's `Start`. -/
structure RouterEnv where
  canViolateDRC : Bool
  routingMode : RoutingRM
  hover : List HoverItem
  startItem : Option StartItem
  trackWidth : Int
  checkColliding : DummySeg → Bool
  placerStartOk : Bool

/-- The router-owned state `StartRouting` reads and writes. -/
structure RouterSt where
  state : RouterState
  mode : RouterMode
  placer : Option PlacerKind
  failureReason : Option String
  forceMarkObstaclesMode : Bool
  currentEnd : Pt
deriving DecidableEq, Repr

/-- The placer constructed for each mode (pns_router.cpp lines 215–235);
the `switch` covers every `ROUTER_MODE` value, so its `default` branch
is unreachable. -/
def placerOf : RouterMode → PlacerKind
  | RouterMode.PNS_MODE_ROUTE_SINGLE => PlacerKind.LINE_PLACER
  | RouterMode.PNS_MODE_ROUTE_DIFF_PAIR => PlacerKind.DIFF_PAIR_PLACER
  | RouterMode.PNS_MODE_TUNE_SINGLE => PlacerKind.MEANDER_PLACER
  | RouterMode.PNS_MODE_TUNE_DIFF_PAIR => PlacerKind.DP_MEANDER_PLACER
  | RouterMode.PNS_MODE_TUNE_DIFF_PAIR_SKEW => PlacerKind.MEANDER_SKEW_PLACER

/-- The failure reason set on a DRC-violating start point. -/
def drcFailureMessage : String := "The routing start point violates DRC."

/-- Model of `ROUTER::isStartingPointRoutable` (pns_router.cpp lines 173–203):
settings that tolerate violations in mark-obstacles mode short-circuit
to `true`; any non-routable hover item overlapping the target layer
fails; in single-track mode with a start item, a collision of the dummy
start segment fails; everything else (including the diff-pair TODO
branch) passes. -/
def isStartingPointRoutable (env : RouterEnv) (r : RouterSt) (aLayer : Int) : Bool :=
  if env.canViolateDRC ∧ env.routingMode = RoutingRM.RM_MarkObstacles then true
  else if env.hover.any (fun it => !it.isRoutable && layerOverlaps it.layers aLayer) then
    false
  else
    match r.mode, env.startItem with
    | RouterMode.PNS_MODE_ROUTE_SINGLE, some si =>
        !env.checkColliding
          { a := si.anchor, b := si.anchor, net := si.net,
            width := env.trackWidth, layer := aLayer }
    | _, _ => true

/-- Model of `ROUTER::StartRouting` (pns_router.cpp lines 205–253): pre-check the
start point (on failure set the DRC failure reason and return `false`);
construct the placer for the current mode and clear the
mark-obstacles-forcing flag; run the placer's `Start`; on success record
the current end point and enter `ROUTE_TRACK`.  The placer's
`UpdateSizes` / `SetLayer` / logger calls touch only collaborators. -/
def startRouting (env : RouterEnv) (r : RouterSt) (aP : Pt) (aLayer : Int) :
    Bool × RouterSt :=
  if !(isStartingPointRoutable env r aLayer) then
    (false, { r with failureReason := some drcFailureMessage })
  else
    let r1 := { r with forceMarkObstaclesMode := false,
                       placer := some (placerOf r.mode) }
    if !env.placerStartOk then (false, r1)
    else (true, { r1 with currentEnd := aP, state := RouterState.ROUTE_TRACK })

/-- Environment for the C2 counterexample: empty board around the start
point, placer `Start` fails. -/
def c2EnvPlacerFail : RouterEnv :=
  { canViolateDRC := false, routingMode := RoutingRM.RM_Shove, hover := [],
    startItem := none, trackWidth := 250000,
    checkColliding := fun _ => false, placerStartOk := false }

/-- Environment for the empty-space success scenario. -/
def c2EnvEmptyOk : RouterEnv := { c2EnvPlacerFail with placerStartOk := true }

/-- Environment for the foreign-net start scenario: the dummy start
segment collides with the foreign-net pad. -/
def c2EnvForeign : RouterEnv :=
  { c2EnvPlacerFail with
    startItem := some { anchor := (0, 0), net := 7 },
    checkColliding := fun _ => true, placerStartOk := true }

/-- An idle router in single-track mode with no failure reason. -/
def c2Router0 : RouterSt :=
  { state := RouterState.IDLE, mode := RouterMode.PNS_MODE_ROUTE_SINGLE,
    placer := none, failureReason := none, forceMarkObstaclesMode := false,
    currentEnd := (0, 0) }

/-! ## Thermal-spoke generation (`ZONE_FILLER::buildThermalSpokes`)

Embedding of `hasThermalConnection` (zone_filler.cpp lines 397–420) and
`buildThermalSpokes` (lines 987–1100).  Bounding boxes are modelled as
closed integer boxes; the rotation (`SHAPE_LINE_CHAIN::Rotate` on
doubles) and translation applied to each finished stub are kept
symbolic in the generated record, since no claim depends on the rotated
coordinates. -/

/-- An axis-aligned bounding box (`EDA_RECT` / `BOX2I`), as closed
intervals. -/
structure Box where
  x1 : Int
  y1 : Int
  x2 : Int
  y2 : Int
deriving DecidableEq, Repr

/-- Model of `Inflate( d )`: grow the box by `d` on every side. -/
def boxInflate (b : Box) (d : Int) : Box :=
  { x1 := b.x1 - d, y1 := b.y1 - d, x2 := b.x2 + d, y2 := b.y2 + d }

/-- Model of `Intersects`: the boxes share at least a point (touching counts). -/
def boxIntersects (a b : Box) : Bool :=
  a.x1 ≤ b.x2 ∧ b.x1 ≤ a.x2 ∧ a.y1 ≤ b.y2 ∧ b.y1 ≤ a.y2

/-- Pad shapes (`PAD_SHAPE_T`); only `CIRCLE` changes spoke layout. -/
inductive PadShape
  | CIRCLE
  | OVAL
  | RECT
  | TRAPEZOID
  | ROUNDRECT
  | CHAMFERED_RECT
  | CUSTOM
deriving DecidableEq, Repr

/-- Enum `ZONE_CONNECTION` as resolved by `aZone->GetPadConnection( pad )`. -/
inductive ZoneConnection
  | NONE
  | THERMAL
  | FULL
  | THT_THERMAL
deriving DecidableEq, Repr

/-- Enum `PAD_ATTR_T`. -/
inductive PadAttrib
  | STANDARD
  | SMD
  | CONN
  | HOLE_NOT_PLATED
deriving DecidableEq, Repr

/-- A pad, carrying exactly the values the spoke builder reads (the
zone-resolved connection mode, thermal gap and spoke width included).
`baseBB` is the bounding box of the dummy unrotated pad at the origin. -/
structure Pad where
  connection : ZoneConnection
  attrib : PadAttrib
  netCode : Int
  bbox : Box
  baseBB : Box
  sizeX : Int
  sizeY : Int
  onLayer : Bool
  thermalGap : Int
  spokeWConfig : Int
  shape : PadShape
  orientation : Int
  shapePos : Pt
deriving DecidableEq, Repr

/-- The zone data `buildThermalSpokes` reads. -/
structure SpokeZone where
  netCode : Int
  bbox : Box
  zoneClearance : Int
  bdsBiggestClearance : Int
  minThickness : Int
deriving DecidableEq, Repr

/-- Model of `hasThermalConnection( pad, zone )` (zone_filler.cpp lines
397–420). -/
def hasThermalConnection (pad : Pad) (z : SpokeZone) : Bool :=
  if pad.connection = ZoneConnection.THT_THERMAL ∧ pad.attrib ≠ PadAttrib.STANDARD then
    false
  else if pad.connection ≠ ZoneConnection.THERMAL
      ∧ pad.connection ≠ ZoneConnection.THT_THERMAL then
    false
  else if pad.netCode ≠ z.netCode ∨ pad.netCode ≤ 0 then
    false
  else
    boxIntersects (boxInflate pad.bbox pad.thermalGap) z.bbox

/-- The constant `epsilon = KiROUND( IU_PER_MM * 0.04 )` with pcbnew's
`IU_PER_MM = 1e6` (1 IU = 1 nm): 40000 IU. -/
def spokeEpsilon : Int := 40000

/-- One generated stub: the five appended vertices in unrotated
pad-local coordinates (the fourth is the marked test point), plus the
rotation (decidegrees) and translation applied afterwards. -/
structure SpokeGen where
  pts : List Pt
  angleDeciDeg : Int
  pos : Pt
deriving DecidableEq, Repr

/-- The four stubs appended for one accepted pad (zone_filler.cpp lines
1053–1097): lower, upper, right and left, built from the half spoke
width and the inflated relief bounding box, each rotated with the pad
(45° = 450 decidegrees for circular pads) and moved to the pad shape
position. -/
def spokeStubs (pad : Pad) (spokeW : Int) : List SpokeGen :=
  let shw := spokeW.tdiv 2
  let reliefBB := boxInflate pad.baseBB (pad.thermalGap + spokeEpsilon)
  let ang := if pad.shape = PadShape.CIRCLE then 450 else pad.orientation
  [ { pts := [(shw, -shw), (-shw, -shw), (-shw, reliefBB.y2),
              (0, reliefBB.y2), (shw, reliefBB.y2)],
      angleDeciDeg := ang, pos := pad.shapePos },
    { pts := [(shw, shw), (-shw, shw), (-shw, reliefBB.y1),
              (0, reliefBB.y1), (shw, reliefBB.y1)],
      angleDeciDeg := ang, pos := pad.shapePos },
    { pts := [(-shw, shw), (-shw, -shw), (reliefBB.x2, -shw),
              (reliefBB.x2, 0), (reliefBB.x2, shw)],
      angleDeciDeg := ang, pos := pad.shapePos },
    { pts := [(shw, shw), (shw, -shw), (reliefBB.x1, -shw),
              (reliefBB.x1, 0), (reliefBB.x1, shw)],
      angleDeciDeg := ang, pos := pad.shapePos } ]

/-- The body of `buildThermalSpokes` for one pad (zone_filler.cpp lines
1002–1097): skip pads without a thermal connection, off-layer pads,
pads whose clamped spoke width does not exceed the zone min thickness,
and pads whose inflated bounding box misses the inflated zone bounding
box; otherwise emit the four stubs. -/
def spokesForPad (z : SpokeZone) (pad : Pad) : List SpokeGen :=
  if !hasThermalConnection pad z then []
  else if !pad.onLayer then []
  else
    let spokeW := min (min pad.spokeWConfig pad.sizeX) pad.sizeY
    if spokeW ≤ z.minThickness then []
    else
      let zoneBB := boxInflate z.bbox (max z.bdsBiggestClearance z.zoneClearance)
      let itemBB := boxInflate pad.bbox (pad.thermalGap + spokeEpsilon)
      if !boxIntersects itemBB zoneBB then []
      else spokeStubs pad spokeW

/-- Model of `buildThermalSpokes`: the per-pad stubs over the board's pad list,
in order. -/
def buildThermalSpokesModel (z : SpokeZone) (pads : List Pad) : List SpokeGen :=
  pads.flatMap (spokesForPad z)

/-- Witness pad for C5: a thermally connected, on-layer standard pad. -/
def c5Pad : Pad :=
  { connection := ZoneConnection.THERMAL, attrib := PadAttrib.STANDARD,
    netCode := 1, bbox := { x1 := -800000, y1 := -800000, x2 := 800000, y2 := 800000 },
    baseBB := { x1 := -800000, y1 := -800000, x2 := 800000, y2 := 800000 },
    sizeX := 1600000, sizeY := 1600000, onLayer := true,
    thermalGap := 200000, spokeWConfig := 400000,
    shape := PadShape.CIRCLE, orientation := 0, shapePos := (0, 0) }

/-- Witness zone for C5. -/
def c5Zone : SpokeZone :=
  { netCode := 1, bbox := { x1 := -5000000, y1 := -5000000, x2 := 5000000, y2 := 5000000 },
    zoneClearance := 200000, bdsBiggestClearance := 200000, minThickness := 180000 }

/-! ## Region and term models of the fill pipeline

`SHAPE_POLY_SET` values are modelled two ways, matching what the claims
need.  For the copper pipeline (`computeRawFilledArea`), a polygon set
is its covered point set, `Region = Pt → Bool`: boolean composition is
pointwise, while offsetting, simplification, fracturing and hatch
patterning are collaborator transforms carried in `CopperEnv`.  For the
non-copper branch of `fillSingleZone`, where the claim is about the
exact sequence of collaborator calls and their arguments, the polygon
set is a syntax tree of those calls (`PolyTerm`). -/

def Region : Type := Pt → Bool

def regionSub (a b : Region) : Region := fun p => a p && !(b p)

def regionInter (a b : Region) : Region := fun p => a p && b p

def regionUnion (a b : Region) : Region := fun p => a p || b p

def emptyRegion : Region := fun _ => false

/-- Enum `SHAPE_POLY_SET::CORNER_STRATEGY` values the filler uses. -/
inductive CornerStrategy
  | CHAMFER_ALL_CORNERS
  | ROUND_ALL_CORNERS
deriving DecidableEq, Repr

/-- Enum `SHAPE_POLY_SET::POLYGON_MODE`. -/
inductive PolyMode
  | PM_FAST
  | PM_STRICTLY_SIMPLE
deriving DecidableEq, Repr

/-- The constant `Millimeter2iu( 0.001 )` with `IU_PER_MM = 1e6`: the epsilon the
filler subtracts from the half minimum width. -/
def fillEpsilon : Int := 1000

/-- One thermal spoke as the survival loop sees it: its chain vertices
(`CPoint(3)` is the designated test point) and its
`SHAPE_LINE_CHAIN::PointInside` collaborator predicate. -/
structure Spoke where
  pts : List Pt
  inside : Pt → Bool

instance : Inhabited Spoke := ⟨{ pts := [], inside := fun _ => false }⟩

/-- Model of `spoke.CPoint( 3 )`: the fixed sample point on the relief
boundary. -/
def spokeTestPt (s : Spoke) : Pt := s.pts.getD 3 ((0 : Int), (0 : Int))

/-- Enumerate a list with indices starting at `k` (stands in for the
deque addresses the source compares). -/
def enumFrom {α : Type} (k : Nat) : List α → List (Nat × α)
  | [] => []
  | a :: as => (k, a) :: enumFrom (k + 1) as

/-- The inner loop of the survival test: `&other != &spoke` and
`other.PointInside( testPt )` for some other spoke. -/
def otherSpokeHit (all : List Spoke) (i : Nat) (pt : Pt) : Bool :=
  (enumFrom 0 all).any (fun q => (!(q.1 == i)) && q.2.inside pt)

/-- The spoke-survival loop (zone_filler.cpp lines 825–855), faithfully
including the `interval++ > 400` cancellation poll: state is
(remaining spokes, interval counter, poll counter, indices added so
far); the first component of the result is `false` when the loop was
cancelled (early return from `computeRawFilledArea`). -/
def spokeLoopGo (testArea : Pt → Bool) (all : List Spoke) (hasReporter : Bool)
    (cancel : Nat → Bool) :
    List (Nat × Spoke) → Nat → Nat → List Nat → Bool × Nat × List Nat
  | [], _, tick, added => (true, tick, added)
  | q :: rest, interval, tick, added =>
    if testArea (spokeTestPt q.2) then
      spokeLoopGo testArea all hasReporter cancel rest interval tick (added ++ [q.1])
    else if interval > 400 then
      if hasReporter && cancel tick then (false, tick + 1, added)
      else if otherSpokeHit all q.1 (spokeTestPt q.2) then
        spokeLoopGo testArea all hasReporter cancel rest 0 (tick + 1) (added ++ [q.1])
      else
        spokeLoopGo testArea all hasReporter cancel rest 0 (tick + 1) added
    else
      if otherSpokeHit all q.1 (spokeTestPt q.2) then
        spokeLoopGo testArea all hasReporter cancel rest (interval + 1) tick (added ++ [q.1])
      else
        spokeLoopGo testArea all hasReporter cancel rest (interval + 1) tick added

/-- The survival test over all spokes: (completed?, surviving indices in
order). -/
def spokeFilter (testArea : Pt → Bool) (all : List Spoke) (hasReporter : Bool)
    (cancel : Nat → Bool) : Bool × List Nat :=
  ((spokeLoopGo testArea all hasReporter cancel (enumFrom 0 all) 0 0 []).1,
   (spokeLoopGo testArea all hasReporter cancel (enumFrom 0 all) 0 0 []).2.2)

/-- Declarative survivor description: a spoke survives exactly when its
test point is in the test area or inside some other spoke. -/
def spokeSurvivors (testArea : Pt → Bool) (all : List Spoke) : List Nat :=
  ((enumFrom 0 all).filter
    (fun q => testArea (spokeTestPt q.2) || otherSpokeHit all q.1 (spokeTestPt q.2))).map
    Prod.fst

/-- The collaborators of `computeRawFilledArea` for one (zone, layer):
the smoothed outline, the stage outputs of `knockoutThermalReliefs` and
`buildCopperItemClearances` (hole sets subtracted from / withheld from
the working area), the generated spokes, the offset and normalization
transforms, the hatch-patterning pass, and the progress reporter. -/
structure CopperEnv where
  smoothed : Region
  thermalHoles : Region
  clearanceHoles : Region
  spokes : List Spoke
  deflate : Int → Nat → CornerStrategy → Region → Region
  inflate : Int → Nat → CornerStrategy → Region → Region
  simplify : Region → Region
  fracture : Region → Region
  hatch : Region → Region
  hasReporter : Bool
  cancel : Nat → Bool

/-- The test area the source builds for spoke hit-testing
(zone_filler.cpp lines 806–817): (smoothed minus thermal reliefs) minus
clearance holes, then the minimum-width deflate/inflate round trip with
the intermediate (chamfer) corner strategy when
`half_min_width - epsilon > epsilon`. -/
def codeTestArea (ge : CopperEnv) (minThickness : Int) (numSegs : Nat) : Region :=
  let base := regionSub (regionSub ge.smoothed ge.thermalHoles) ge.clearanceHoles
  let halfMin := minThickness.tdiv 2
  if halfMin - fillEpsilon > fillEpsilon then
    ge.inflate (halfMin - fillEpsilon) numSegs CornerStrategy.CHAMFER_ALL_CORNERS
      (ge.deflate (halfMin - fillEpsilon) numSegs CornerStrategy.CHAMFER_ALL_CORNERS base)
  else base

/-- The test area as the claim words it: "smoothed outline minus
clearance holes", minimum-width-pruned — without the thermal-relief
knockout. -/
def claimTestArea (ge : CopperEnv) (minThickness : Int) (numSegs : Nat) : Region :=
  let base := regionSub ge.smoothed ge.clearanceHoles
  let halfMin := minThickness.tdiv 2
  if halfMin - fillEpsilon > fillEpsilon then
    ge.inflate (halfMin - fillEpsilon) numSegs CornerStrategy.CHAMFER_ALL_CORNERS
      (ge.deflate (halfMin - fillEpsilon) numSegs CornerStrategy.CHAMFER_ALL_CORNERS base)
  else base

/-- The region covered by the surviving spoke outlines added to the raw
fill. -/
def addedSpokesRegion (all : List Spoke) (added : List Nat) : Region :=
  fun p => added.any (fun i => (all.getD i default).inside p)

/-- The per-zone inputs of the fill pipeline, including the mutable fill
state of the zone (`m_FilledPolysList`, the fill-state hashes and the
is-filled flag), which the pipeline never reads: every fill recomputes
from scratch. -/
structure PipeZone where
  onCopper : Bool
  minThickness : Int
  cornerRadius : Int
  useThickness : Bool
  hatchMode : Bool
  brdOutlinesValid : Bool
  numSegs : Nat
  isFilled : Bool
  filledState : List (Nat × List Poly)
  hashState : List (Nat × Int)
deriving Repr

/-- Replace the mutable fill-state components of a pipeline zone. -/
def setFillState (z : PipeZone) (fl : List (Nat × List Poly))
    (hs : List (Nat × Int)) (fi : Bool) : PipeZone :=
  { z with filledState := fl, hashState := hs, isFilled := fi }

/-- Model of `ZONE_FILLER::computeRawFilledArea` (zone_filler.cpp lines
742–918) in region semantics, with the source's cancellation polls
(numbered in order; the spoke loop consumes further polls): thermal
knockout, clearance-hole construction, spoke generation and survival
test, re-intersection with the smoothed outline, clearance subtraction,
minimum-width deflate, optional hatch patterning, re-inflation with the
final (round) corner strategy — skipped in outline-stroke mode — with
the guard re-intersection when the min thickness exceeds the corner
radius, and the final fracture.  Returns (raw, final); on cancellation
the final polygon set is never assigned (empty). -/
def computeRawFilledAreaR (z : PipeZone) (ge : CopperEnv) : Region × Region :=
  let halfMin := z.minThickness.tdiv 2
  if ge.hasReporter && ge.cancel 0 then (ge.smoothed, emptyRegion)
  else
    let afterThermal := regionSub ge.smoothed ge.thermalHoles
    if ge.hasReporter && ge.cancel 1 then (afterThermal, emptyRegion)
    else if ge.hasReporter && ge.cancel 2 then (afterThermal, emptyRegion)
    else if ge.hasReporter && ge.cancel 3 then (afterThermal, emptyRegion)
    else if ge.hasReporter && ge.cancel 4 then (afterThermal, emptyRegion)
    else
      let sr := spokeLoopGo (fun p => codeTestArea ge z.minThickness z.numSegs p)
        ge.spokes ge.hasReporter (fun k => ge.cancel (5 + k)) (enumFrom 0 ge.spokes) 0 0 []
      let withSpokes := regionUnion afterThermal (addedSpokesRegion ge.spokes sr.2.2)
      if !sr.1 then (withSpokes, emptyRegion)
      else if ge.hasReporter && ge.cancel (5 + sr.2.1) then (withSpokes, emptyRegion)
      else
        let r2 := ge.simplify (regionInter withSpokes ge.smoothed)
        if ge.hasReporter && ge.cancel (6 + sr.2.1) then (r2, emptyRegion)
        else
          let r3 := regionSub r2 ge.clearanceHoles
          let r4 := if halfMin - fillEpsilon > fillEpsilon then
              ge.deflate (halfMin - fillEpsilon) z.numSegs
                CornerStrategy.CHAMFER_ALL_CORNERS r3
            else r3
          if ge.hasReporter && ge.cancel (7 + sr.2.1) then (r4, emptyRegion)
          else
            let r5 := if z.hatchMode then ge.hatch r4 else r4
            if ge.hasReporter && ge.cancel (8 + sr.2.1) then (r5, emptyRegion)
            else
              let r6 :=
                if z.useThickness then r5
                else if halfMin - fillEpsilon > fillEpsilon then
                  let infl := ge.inflate (halfMin - fillEpsilon) z.numSegs
                    CornerStrategy.ROUND_ALL_CORNERS (ge.simplify r5)
                  if z.minThickness > z.cornerRadius then regionInter infl ge.smoothed
                  else infl
                else r5
              let r7 := ge.fracture r6
              (r7, r7)

/-- Syntax tree of the collaborator calls the non-copper branch makes on
its working polygon set. -/
inductive PolyTerm
  | base
  | boardOutline
  | inter (mode : PolyMode) (a b : PolyTerm)
  | deflate (amount : Int) (numSegs : Nat) (a : PolyTerm)
  | hatch (a : PolyTerm)
  | fracture (mode : PolyMode) (a : PolyTerm)
deriving DecidableEq, Repr

/-- The non-copper branch of `ZONE_FILLER::fillSingleZone`
(zone_filler.cpp lines 946–977): intersect with the board outline when
valid; deflate by `half_min_width` (the `- epsilon` is commented out in
the source); optionally hatch; re-inflate (`Deflate` of the negated
amount) by `half_min_width - epsilon` unless the zone strokes its
outline at min width or the amount is below the epsilon threshold;
fracture the final set strictly simple.  Returns (raw, final). -/
def fillNonCopper (z : PipeZone) : PolyTerm × PolyTerm :=
  let halfMin := z.minThickness.tdiv 2
  let t1 := if z.brdOutlinesValid then
      PolyTerm.inter PolyMode.PM_STRICTLY_SIMPLE PolyTerm.base PolyTerm.boardOutline
    else PolyTerm.base
  let t2 := PolyTerm.deflate halfMin z.numSegs t1
  let t3 := if z.hatchMode then PolyTerm.hatch t2 else t2
  let t4 := if z.useThickness then t3
    else if halfMin - fillEpsilon > fillEpsilon then
      PolyTerm.deflate (-(halfMin - fillEpsilon)) z.numSegs t3
    else t3
  (t4, PolyTerm.fracture PolyMode.PM_STRICTLY_SIMPLE t4)

/-- The non-copper branch as the claim words it: deflate by
`half_min_width - epsilon` and re-inflate "by the same amount". -/
def claimNonCopper (z : PipeZone) : PolyTerm × PolyTerm :=
  let halfMin := z.minThickness.tdiv 2
  let t1 := if z.brdOutlinesValid then
      PolyTerm.inter PolyMode.PM_STRICTLY_SIMPLE PolyTerm.base PolyTerm.boardOutline
    else PolyTerm.base
  let t2 := PolyTerm.deflate (halfMin - fillEpsilon) z.numSegs t1
  let t3 := if z.hatchMode then PolyTerm.hatch t2 else t2
  let t4 := if z.useThickness then t3
    else if halfMin - fillEpsilon > fillEpsilon then
      PolyTerm.deflate (-(halfMin - fillEpsilon)) z.numSegs t3
    else t3
  (t4, PolyTerm.fracture PolyMode.PM_STRICTLY_SIMPLE t4)

/-- The non-copper pipeline as the amended claim words it: intersect
with the board outline when valid; deflate by half the minimum
thickness (no epsilon subtracted); optionally hatch; re-inflate by half
the minimum thickness minus epsilon — a smaller amount than the deflate
— unless the zone strokes its outline at min width or the amount is at
most epsilon; fracture strictly simple. -/
def amendedNonCopper (z : PipeZone) : PolyTerm × PolyTerm :=
  let halfMin := z.minThickness.tdiv 2
  let t1 := if z.brdOutlinesValid then
      PolyTerm.inter PolyMode.PM_STRICTLY_SIMPLE PolyTerm.base PolyTerm.boardOutline
    else PolyTerm.base
  let t2 := PolyTerm.deflate halfMin z.numSegs t1
  let t3 := if z.hatchMode then PolyTerm.hatch t2 else t2
  let t4 := if z.useThickness then t3
    else if halfMin - fillEpsilon > fillEpsilon then
      PolyTerm.deflate (-(halfMin - fillEpsilon)) z.numSegs t3
    else t3
  (t4, PolyTerm.fracture PolyMode.PM_STRICTLY_SIMPLE t4)

/-- Model of `fillSingleZone` dispatch (zone_filler.cpp lines 926–981): copper
layers run `computeRawFilledArea`; other layers run the non-copper
pipeline. -/
def fillSingleZonePipe (z : PipeZone) (ge : CopperEnv) :
    (PolyTerm × PolyTerm) ⊕ (Region × Region) :=
  if z.onCopper then Sum.inr (computeRawFilledAreaR z ge)
  else Sum.inl (fillNonCopper z)

/-- The concrete non-copper zone of the C7 counterexample: 0.2 mm
minimum thickness, no hatch, no board outline, solid fill. -/
def c7Zone : PipeZone :=
  { onCopper := false, minThickness := 200000, cornerRadius := 0,
    useThickness := false, hatchMode := false, brdOutlinesValid := false,
    numSegs := 6, isFilled := false, filledState := [], hashState := [] }

/-- Geometry collaborators for the C4 counterexample: the thermal
reliefs cover the spoke's test point; min thickness 0 so that the
deflate/inflate round trip is skipped by the source itself. -/
def c4Ge : CopperEnv :=
  { smoothed := fun _ => true,
    thermalHoles := fun p => p = ((7 : Int), (7 : Int)),
    clearanceHoles := fun _ => false,
    spokes := [{ pts := [(0, 0), (1, 0), (1, 1), (7, 7), (0, 1)],
                 inside := fun _ => false }],
    deflate := fun _ _ _ r => r, inflate := fun _ _ _ r => r,
    simplify := fun r => r, fracture := fun r => r, hatch := fun r => r,
    hasReporter := false, cancel := fun _ => false }

section IslandLemmas

variable (env : IslandEnv) (mode : IslandRemovalMode) (minArea : Int)

theorem mem_insertDesc {a x : Nat} {l : List Nat} :
    a ∈ insertDesc x l ↔ a = x ∨ a ∈ l := by
  induction l with
  | nil => simp [insertDesc]
  | cons y ys ih =>
    by_cases h : y ≤ x
    · simp [insertDesc, h]
    · simp only [insertDesc, if_neg h, List.mem_cons, ih]
      tauto

theorem perm_insertDesc (x : Nat) (l : List Nat) :
    List.Perm (insertDesc x l) (x :: l) := by
  induction l with
  | nil => simp [insertDesc]
  | cons y ys ih =>
    by_cases h : y ≤ x
    · rw [insertDesc, if_pos h]
    · rw [insertDesc, if_neg h]
      exact (ih.cons y).trans (List.Perm.swap x y ys)

theorem perm_sortDesc (l : List Nat) : List.Perm (sortDesc l) l := by
  induction l with
  | nil => simp [sortDesc]
  | cons x xs ih =>
    exact (perm_insertDesc x (sortDesc xs)).trans (ih.cons x) |>.trans (List.Perm.refl _)

theorem sorted_insertDesc {x : Nat} {l : List Nat}
    (h : List.Pairwise (fun a b => b ≤ a) l) :
    List.Pairwise (fun a b => b ≤ a) (insertDesc x l) := by
  induction l with
  | nil => simp [insertDesc]
  | cons y ys ih =>
    rcases List.pairwise_cons.mp h with ⟨hy, hys⟩
    by_cases hxy : y ≤ x
    · rw [insertDesc, if_pos hxy]
      refine List.pairwise_cons.mpr ⟨?_, h⟩
      intro b hb
      rcases List.mem_cons.mp hb with rfl | hb
      · exact hxy
      · exact le_trans (hy b hb) hxy
    · rw [insertDesc, if_neg hxy]
      refine List.pairwise_cons.mpr ⟨?_, ih hys⟩
      intro b hb
      rcases mem_insertDesc.mp hb with rfl | hb
      · exact le_of_not_le hxy
      · exact hy b hb

theorem sorted_sortDesc (l : List Nat) :
    List.Pairwise (fun a b => b ≤ a) (sortDesc l) := by
  induction l with
  | nil => simp [sortDesc]
  | cons x xs ih => exact sorted_insertDesc ih

theorem strictDesc_sortDesc {l : List Nat} (h : l.Nodup) :
    List.Pairwise (fun a b => b < a) (sortDesc l) := by
  have hnd : (sortDesc l).Nodup := (perm_sortDesc l).nodup_iff.mpr h
  have hs := sorted_sortDesc l
  have := List.Pairwise.and hs hnd
  exact this.imp (fun {a b} hab => lt_of_le_of_ne hab.1 (Ne.symm hab.2))

/-- Out-of-range index sets do not affect `keepFrom`. -/
theorem keepFrom_of_lt {S : List Nat} :
    ∀ (ps : List Poly) (k : Nat), (∀ j ∈ S, j < k) →
      keepFrom env mode minArea S k ps = ps := by
  intro ps
  induction ps with
  | nil => intro k _; rfl
  | cons p ps ih =>
    intro k hk
    rw [keepFrom, if_neg (fun hc => absurd (hk k hc.1) (lt_irrefl k)),
      ih (k + 1) (fun j hj => Nat.lt_succ_of_lt (hk j hj))]

/-- The function `keepFrom` only depends on membership in the index set. -/
theorem keepFrom_congr {S T : List Nat} (hm : ∀ k, (k ∈ S) ↔ (k ∈ T)) :
    ∀ (ps : List Poly) (k : Nat),
      keepFrom env mode minArea S k ps = keepFrom env mode minArea T k ps := by
  intro ps
  induction ps with
  | nil => intro k; rfl
  | cons p ps ih =>
    intro k
    by_cases h : k ∈ S ∧ islandDelCond env mode minArea p = true
    · rw [keepFrom, if_pos h, keepFrom, if_pos ⟨(hm k).mp h.1, h.2⟩, ih]
    · rw [keepFrom, if_neg h, keepFrom,
        if_neg (fun hc => h ⟨(hm k).mpr hc.1, hc.2⟩), ih]

theorem islandStepP_cons_succ (p : Poly) (ps : List Poly) (i : Nat) :
    islandStepP env mode minArea (p :: ps) (i + 1)
      = p :: islandStepP env mode minArea ps i := by
  rw [islandStepP, islandStepP, List.getD_cons_succ, List.eraseIdx_cons_succ]
  by_cases h : islandDelCond env mode minArea (ps.getD i []) = true
  · rw [if_pos h, if_pos h]
  · rw [if_neg h, if_neg h]

/-- Removing the single index `k + i` from the enumeration, then filtering
the rest, equals filtering with `k + i` included: the key exchange lemma
for the descending-order deletion fold. -/
theorem keepFrom_stepP {T : List Nat} :
    ∀ (ps : List Poly) (k i : Nat), i < ps.length → (∀ j ∈ T, j < k + i) →
      keepFrom env mode minArea T k (islandStepP env mode minArea ps i)
        = keepFrom env mode minArea ((k + i) :: T) k ps := by
  intro ps
  induction ps with
  | nil => intro k i hi _; exact absurd hi (by simp)
  | cons p ps ih =>
    intro k i hi hT
    cases i with
    | zero =>
      have hkT : k ∉ T := fun hc => by have := hT k hc; omega
      by_cases hdel : islandDelCond env mode minArea p = true
      · rw [islandStepP, List.getD_cons_zero, if_pos hdel, List.eraseIdx_cons_zero,
          keepFrom_of_lt env mode minArea ps k (by intro j hj; have := hT j hj; omega),
          keepFrom, if_pos ⟨by simp, hdel⟩,
          keepFrom_of_lt env mode minArea ps (k + 1)
            (by intro j hj
                rcases List.mem_cons.mp hj with rfl | hj
                · omega
                · have := hT j hj; omega)]
      · rw [islandStepP, List.getD_cons_zero, if_neg hdel,
          keepFrom, if_neg (fun hc => hkT hc.1),
          keepFrom, if_neg (fun hc => hdel hc.2),
          keepFrom_of_lt env mode minArea ps (k + 1)
            (by intro j hj; have := hT j hj; omega),
          keepFrom_of_lt env mode minArea ps (k + 1)
            (by intro j hj
                rcases List.mem_cons.mp hj with rfl | hj
                · omega
                · have := hT j hj; omega)]
    | succ i2 =>
      have hi2 : i2 < ps.length := by simpa using hi
      rw [islandStepP_cons_succ]
      have hrec := ih (k + 1) i2 hi2 (by intro j hj; have := hT j hj; omega)
      have hmem : (k ∈ (k + (i2 + 1)) :: T) ↔ k ∈ T := by
        constructor
        · intro hc
          rcases List.mem_cons.mp hc with heq | hc
          · omega
          · exact hc
        · exact fun hc => List.mem_cons_of_mem _ hc
      have harith : k + 1 + i2 = k + (i2 + 1) := by omega
      by_cases hc : k ∈ T ∧ islandDelCond env mode minArea p = true
      · rw [keepFrom, if_pos hc, keepFrom, if_pos ⟨hmem.mpr hc.1, hc.2⟩, hrec, harith]
      · rw [keepFrom, if_neg hc, keepFrom,
          if_neg (fun hx => hc ⟨hmem.mp hx.1, hx.2⟩), hrec, harith]

/-- The flags component never influences the polygon component. -/
theorem foldl_islandStep_fst :
    ∀ (S : List Nat) (ps : List Poly) (fs : List Nat),
      (S.foldl (islandStep env mode minArea) (ps, fs)).1
        = S.foldl (islandStepP env mode minArea) ps := by
  intro S
  induction S with
  | nil => intro ps fs; rfl
  | cons i T ih =>
    intro ps fs
    simp only [List.foldl_cons]
    by_cases h : islandDelCond env mode minArea (ps.getD i []) = true
    · rw [islandStep, if_pos h, islandStepP, if_pos h]
      exact ih _ _
    · rw [islandStep, if_neg h, islandStepP, if_neg h]
      exact ih _ _

/-- Folding the deletion step over a strictly descending, in-range index
list filters exactly the indices whose deletion condition holds. -/
theorem foldl_islandStepP_eq_keepFrom :
    ∀ (S : List Nat) (ps : List Poly),
      List.Pairwise (fun a b => b < a) S → (∀ i ∈ S, i < ps.length) →
      S.foldl (islandStepP env mode minArea) ps = keepFrom env mode minArea S 0 ps := by
  intro S
  induction S with
  | nil =>
    intro ps _ _
    simp only [List.foldl_nil]
    rw [keepFrom_of_lt env mode minArea ps 0 (by intro j hj; cases hj)]
  | cons i T ih =>
    intro ps hpw hbound
    rcases List.pairwise_cons.mp hpw with ⟨hiT, hT⟩
    have hi : i < ps.length := hbound i (List.mem_cons_self i T)
    have hlen : ∀ j ∈ T, j < (islandStepP env mode minArea ps i).length := by
      intro j hj
      have hji : j < i := hiT j hj
      by_cases h : islandDelCond env mode minArea (ps.getD i []) = true
      · rw [islandStepP, if_pos h]
        have := List.length_eraseIdx_add_one hi
        omega
      · rw [islandStepP, if_neg h]
        omega
    simp only [List.foldl_cons]
    rw [ih _ hT hlen]
    have := keepFrom_stepP env mode minArea ps 0 i hi
      (by intro j hj; simpa using hiT j hj)
    simpa using this

/-- Full characterization of the net-code > 0 pass: with distinct,
in-range island indices, a polygon survives `removeIslandsNet` exactly
when it is not an island index whose deletion condition holds. -/
theorem removeIslandsNet_eq_keepFrom (islands : List Nat) (polys : List Poly)
    (hnd : islands.Nodup) (hb : ∀ i ∈ islands, i < polys.length) :
    (removeIslandsNet env mode minArea islands polys).1
      = keepFrom env mode minArea islands 0 polys := by
  unfold removeIslandsNet
  rw [foldl_islandStep_fst]
  rw [foldl_islandStepP_eq_keepFrom env mode minArea _ _ (strictDesc_sortDesc hnd)
    (by intro i hi; exact hb i ((perm_sortDesc islands).mem_iff.mp hi))]
  exact keepFrom_congr env mode minArea
    (fun k => (perm_sortDesc islands).mem_iff) polys 0

/-- Every survivor of the zero-net pass has its sample point inside the
board outline. -/
theorem dropOutside_sound (contains : Pt → Bool) :
    ∀ (polys : List Poly) (p : Poly), p ∈ dropOutside contains polys →
      contains (samplePt p) = true := by
  intro polys
  induction polys with
  | nil => intro p hp; cases hp
  | cons q qs ih =>
    intro p hp
    by_cases h : (q.isEmpty ∨ ¬ contains (samplePt q)) = True
    · simp only [eq_iff_iff, iff_true] at h
      simp only [dropOutside, if_pos h] at hp
      exact ih p hp
    · simp only [eq_iff_iff, iff_true] at h
      simp only [dropOutside, if_neg h] at hp
      rcases List.mem_cons.mp hp with rfl | hp
      · push_neg at h
        simpa using h.2
      · exact ih p hp

end IslandLemmas

/-! ## Frame and rollback lemmas for the `Fill` orchestration -/

section FillLemmas

variable (env : FillEnv)

theorem getZone_setZone_ne {st : FillSt} {i j : Nat} {z : ZoneSt} (h : i ≠ j) :
    getZone (setZone st i z) j = getZone st j := by
  unfold getZone setZone
  simp only [List.getD_eq_getElem?_getD, List.getElem?_set_ne h]

theorem getZone_modifyZone (st : FillSt) (i j : Nat) :
    getZone (modifyZone st i) j = getZone st j := rfl

theorem getZone_checkCancel (st : FillSt) (j : Nat) :
    getZone (checkCancel env st).2 j = getZone st j := rfl

theorem setZone_length (st : FillSt) (i : Nat) (z : ZoneSt) :
    (setZone st i z).zones.length = st.zones.length := by
  unfold setZone
  exact List.length_set st.zones i z

/-! ### workLoop frame lemmas -/

theorem fillUnit_commits (st : FillSt) (u : Nat × Nat) :
    (fillUnit env st u).commits = st.commits := rfl

theorem fillUnit_length (st : FillSt) (u : Nat × Nat) :
    (fillUnit env st u).zones.length = st.zones.length := by
  unfold fillUnit
  exact setZone_length _ _ _

theorem fillUnit_getZone_ne (st : FillSt) (u : Nat × Nat) {j : Nat} (h : u.1 ≠ j) :
    getZone (fillUnit env st u) j = getZone st j := by
  unfold fillUnit
  exact getZone_setZone_ne h

theorem workLoop_commits : ∀ (us : List (Nat × Nat)) (st : FillSt),
    (workLoop env us st).commits = st.commits := by
  intro us
  induction us with
  | nil => intro st; rfl
  | cons u us ih =>
    intro st
    rw [workLoop]
    by_cases h : (checkCancel env (fillUnit env st u)).1 = true
    · rw [if_pos h]
      rfl
    · rw [if_neg h, ih]
      rfl

theorem workLoop_length : ∀ (us : List (Nat × Nat)) (st : FillSt),
    (workLoop env us st).zones.length = st.zones.length := by
  intro us
  induction us with
  | nil => intro st; rfl
  | cons u us ih =>
    intro st
    rw [workLoop]
    by_cases h : (checkCancel env (fillUnit env st u)).1 = true
    · rw [if_pos h]
      exact fillUnit_length env st u
    · rw [if_neg h, ih]
      exact fillUnit_length env st u

theorem workLoop_getZone_ne : ∀ (us : List (Nat × Nat)) (st : FillSt) {j : Nat},
    (∀ u ∈ us, u.1 ≠ j) → getZone (workLoop env us st) j = getZone st j := by
  intro us
  induction us with
  | nil => intro st j _; rfl
  | cons u us ih =>
    intro st j hu
    rw [workLoop]
    by_cases h : (checkCancel env (fillUnit env st u)).1 = true
    · rw [if_pos h]
      exact fillUnit_getZone_ne env st u (hu u (by simp))
    · rw [if_neg h, ih _ (fun v hv => hu v (List.mem_cons_of_mem _ hv))]
      exact fillUnit_getZone_ne env st u (hu u (by simp))

/-! ### islandLoop frame lemmas -/

theorem islandZoneLayer_commits (aCheck : Bool) (i l : Nat) (st : FillSt) (ood : Bool) :
    (islandZoneLayer env aCheck i l st ood).1.commits = st.commits := by
  unfold islandZoneLayer
  cases env.islandsOf i l with
  | none => rfl
  | some islands => rfl

theorem islandZoneLayer_length (aCheck : Bool) (i l : Nat) (st : FillSt) (ood : Bool) :
    (islandZoneLayer env aCheck i l st ood).1.zones.length = st.zones.length := by
  unfold islandZoneLayer
  cases env.islandsOf i l with
  | none => rfl
  | some islands => exact setZone_length _ _ _

theorem islandZoneLayer_getZone_ne (aCheck : Bool) (i l : Nat) (st : FillSt) (ood : Bool)
    {j : Nat} (h : i ≠ j) :
    getZone (islandZoneLayer env aCheck i l st ood).1 j = getZone st j := by
  unfold islandZoneLayer
  cases env.islandsOf i l with
  | none => rfl
  | some islands => exact getZone_setZone_ne h

theorem islandLoop_commits (aCheck : Bool) : ∀ (us : List (Nat × Nat)) (st : FillSt) (ood : Bool),
    (islandLoop env aCheck us st ood).2.1.commits = st.commits := by
  intro us
  induction us with
  | nil => intro st ood; rfl
  | cons u us ih =>
    intro st ood
    rw [islandLoop]
    by_cases h :
        (checkCancel env (islandZoneLayer env aCheck u.1 u.2 st ood).1).1 = true
    · rw [if_pos h]
      exact islandZoneLayer_commits env aCheck u.1 u.2 st ood
    · rw [if_neg h, ih]
      exact islandZoneLayer_commits env aCheck u.1 u.2 st ood

theorem islandLoop_length (aCheck : Bool) : ∀ (us : List (Nat × Nat)) (st : FillSt) (ood : Bool),
    (islandLoop env aCheck us st ood).2.1.zones.length = st.zones.length := by
  intro us
  induction us with
  | nil => intro st ood; rfl
  | cons u us ih =>
    intro st ood
    rw [islandLoop]
    by_cases h :
        (checkCancel env (islandZoneLayer env aCheck u.1 u.2 st ood).1).1 = true
    · rw [if_pos h]
      exact islandZoneLayer_length env aCheck u.1 u.2 st ood
    · rw [if_neg h, ih]
      exact islandZoneLayer_length env aCheck u.1 u.2 st ood

theorem islandLoop_getZone_ne (aCheck : Bool) :
    ∀ (us : List (Nat × Nat)) (st : FillSt) (ood : Bool) {j : Nat},
    (∀ u ∈ us, u.1 ≠ j) →
    getZone (islandLoop env aCheck us st ood).2.1 j = getZone st j := by
  intro us
  induction us with
  | nil => intro st ood j _; rfl
  | cons u us ih =>
    intro st ood j hu
    rw [islandLoop]
    by_cases h :
        (checkCancel env (islandZoneLayer env aCheck u.1 u.2 st ood).1).1 = true
    · rw [if_pos h]
      exact islandZoneLayer_getZone_ne env aCheck u.1 u.2 st ood (hu u (by simp))
    · rw [if_neg h, ih _ _ (fun v hv => hu v (List.mem_cons_of_mem _ hv))]
      exact islandZoneLayer_getZone_ne env aCheck u.1 u.2 st ood (hu u (by simp))

/-! ### triLoop frame lemmas -/

theorem triLoop_commits : ∀ (is : List Nat) (st : FillSt),
    (triLoop env is st).commits = st.commits := by
  intro is
  induction is with
  | nil => intro st; rfl
  | cons i rest ih =>
    intro st
    rw [triLoop]
    by_cases h :
        (checkCancel env (setZone st i { getZone st i with triangulationValid := true })).1 = true
    · rw [if_pos h]
      rfl
    · rw [if_neg h, ih]
      rfl

theorem triLoop_length : ∀ (is : List Nat) (st : FillSt),
    (triLoop env is st).zones.length = st.zones.length := by
  intro is
  induction is with
  | nil => intro st; rfl
  | cons i rest ih =>
    intro st
    rw [triLoop]
    by_cases h :
        (checkCancel env (setZone st i { getZone st i with triangulationValid := true })).1 = true
    · rw [if_pos h]
      exact setZone_length _ _ _
    · rw [if_neg h, ih]
      exact setZone_length _ _ _

theorem triLoop_getZone_ne : ∀ (is : List Nat) (st : FillSt) {j : Nat},
    (∀ i ∈ is, i ≠ j) → getZone (triLoop env is st) j = getZone st j := by
  intro is
  induction is with
  | nil => intro st j _; rfl
  | cons i rest ih =>
    intro st j hu
    rw [triLoop]
    by_cases h :
        (checkCancel env (setZone st i { getZone st i with triangulationValid := true })).1 = true
    · rw [if_pos h]
      exact getZone_setZone_ne (hu i (by simp))
    · rw [if_neg h, ih _ (fun v hv => hu v (List.mem_cons_of_mem _ hv))]
      exact getZone_setZone_ne (hu i (by simp))

theorem islandUnits_key_mem {st : FillSt} {islIdxs : List Nat} {u : Nat × Nat}
    (h : u ∈ islandUnits st islIdxs) : u.1 ∈ islIdxs := by
  unfold islandUnits at h
  rcases List.mem_flatMap.mp h with ⟨i, hi, hu⟩
  rcases List.mem_map.mp hu with ⟨l, _, rfl⟩
  exact hi

/-! ### prepZone / prepZones -/

theorem buildHashesFold_isKeepout : ∀ (ls : List Nat) (z : ZoneSt),
    (buildHashesFold env ls z).isKeepout = z.isKeepout := by
  intro ls
  induction ls with
  | nil => intro z; rfl
  | cons l ls ih =>
    intro z
    rw [buildHashesFold] at *
    simp only [List.foldl_cons]
    exact ih _

theorem getZone_setZone_self (st : FillSt) (i : Nat) (z : ZoneSt) :
    getZone (setZone st i z) i
      = if i < st.zones.length then z else getZone st i := by
  unfold getZone setZone
  by_cases h : i < st.zones.length
  · rw [if_pos h]
    simp only [List.getD_eq_getElem?_getD, List.getElem?_set_eq_of_lt z h, Option.getD_some]
  · rw [if_neg h]
    rw [List.set_eq_of_length_le (by omega)]

theorem prepZone_keepout_case {st : FillSt} {i : Nat}
    (h : (getZone st i).isKeepout = true) :
    prepZone env st i = (st, [], []) := by
  unfold prepZone
  simp only [h, if_true]

theorem prepZone_live_case {st : FillSt} {i : Nat}
    (h : (getZone st i).isKeepout = false) :
    prepZone env st i
      = (setZone (modifyZone st i) i
          (unfillZone (buildHashesFold env (getZone st i).layers (getZone st i))),
         (getZone st i).layers.map (fun l => (i, l)), [i]) := by
  unfold prepZone
  simp only [h, Bool.false_eq_true, if_false]

theorem prepZone_getZone_ne (st : FillSt) (i : Nat) {j : Nat} (h : i ≠ j) :
    getZone (prepZone env st i).1 j = getZone st j := by
  by_cases hk : (getZone st i).isKeepout = true
  · rw [prepZone_keepout_case env hk]
  · rw [prepZone_live_case env (by simpa using hk)]
    exact (getZone_setZone_ne h).trans (getZone_modifyZone _ _ _)

theorem prepZone_isKeepout (st : FillSt) (i j : Nat) :
    (getZone (prepZone env st i).1 j).isKeepout = (getZone st j).isKeepout := by
  by_cases hk : (getZone st i).isKeepout = true
  · rw [prepZone_keepout_case env hk]
  · rw [prepZone_live_case env (by simpa using hk)]
    by_cases hij : i = j
    · subst hij
      have := getZone_setZone_self (modifyZone st i) i
        (unfillZone (buildHashesFold env (getZone st i).layers (getZone st i)))
      rw [this]
      by_cases hlt : i < (modifyZone st i).zones.length
      · rw [if_pos hlt]
        show (buildHashesFold env (getZone st i).layers (getZone st i)).isKeepout
          = (getZone st i).isKeepout
        exact buildHashesFold_isKeepout env _ _
      · rw [if_neg hlt]
        rfl
    · exact congrArg ZoneSt.isKeepout
        ((getZone_setZone_ne hij).trans (getZone_modifyZone _ _ _))

theorem prepZone_length (st : FillSt) (i : Nat) :
    (prepZone env st i).1.zones.length = st.zones.length := by
  by_cases hk : (getZone st i).isKeepout = true
  · rw [prepZone_keepout_case env hk]
  · rw [prepZone_live_case env (by simpa using hk)]
    exact setZone_length _ _ _

theorem prepZone_commits (st : FillSt) (i : Nat) :
    (prepZone env st i).1.commits
      = if (getZone st i).isKeepout then st.commits
        else st.commits ++ [(i, getZone st i)] := by
  by_cases hk : (getZone st i).isKeepout = true
  · rw [prepZone_keepout_case env hk, if_pos hk]
  · have hk2 : (getZone st i).isKeepout = false := by simpa using hk
    rw [prepZone_live_case env hk2, hk2]
    rfl

/-- Unfolding `prepZones` over a cons cell. -/
theorem prepZones_acc (idxs : List Nat) :
    ∀ (st : FillSt) (A : List (Nat × Nat)) (B : List Nat),
    idxs.foldl
        (fun acc i =>
          let r := prepZone env acc.1 i
          (r.1, acc.2.1 ++ r.2.1, acc.2.2 ++ r.2.2))
        (st, A, B)
      = ((prepZones env idxs st).1,
         A ++ (prepZones env idxs st).2.1,
         B ++ (prepZones env idxs st).2.2) := by
  induction idxs with
  | nil =>
    intro st A B
    simp [prepZones]
  | cons i rest ih =>
    intro st A B
    rw [List.foldl_cons]
    rw [show prepZones env (i :: rest) st
        = (i :: rest).foldl
            (fun acc i =>
              let r := prepZone env acc.1 i
              (r.1, acc.2.1 ++ r.2.1, acc.2.2 ++ r.2.2))
            (st, [], []) from rfl]
    rw [List.foldl_cons]
    rw [ih, ih]
    simp

theorem prepZones_cons (i : Nat) (rest : List Nat) (st : FillSt) :
    prepZones env (i :: rest) st
      = ((prepZones env rest (prepZone env st i).1).1,
         (prepZone env st i).2.1 ++ (prepZones env rest (prepZone env st i).1).2.1,
         (prepZone env st i).2.2 ++ (prepZones env rest (prepZone env st i).1).2.2) := by
  rw [show prepZones env (i :: rest) st
      = (i :: rest).foldl
          (fun acc i =>
            let r := prepZone env acc.1 i
            (r.1, acc.2.1 ++ r.2.1, acc.2.2 ++ r.2.2))
          (st, [], []) from rfl]
  rw [List.foldl_cons]
  rw [prepZones_acc]
  simp

/-- Keepout-frame facts about the preparation loop: keepout zones are
never touched, never registered, never enter the work or island lists,
and the keepout flag of every zone is preserved. -/
theorem prepZones_keepSpec : ∀ (idxs : List Nat) (st : FillSt),
    (∀ j, (getZone st j).isKeepout = true →
        getZone (prepZones env idxs st).1 j = getZone st j)
    ∧ (∀ j, (getZone (prepZones env idxs st).1 j).isKeepout = (getZone st j).isKeepout)
    ∧ ((prepZones env idxs st).1.zones.length = st.zones.length)
    ∧ (∀ q ∈ (prepZones env idxs st).1.commits,
        q ∈ st.commits ∨ (getZone st q.1).isKeepout = false)
    ∧ (∀ u ∈ (prepZones env idxs st).2.1, (getZone st u.1).isKeepout = false)
    ∧ (∀ j ∈ (prepZones env idxs st).2.2, (getZone st j).isKeepout = false) := by
  intro idxs
  induction idxs with
  | nil =>
    intro st
    refine ⟨fun j _ => rfl, fun j => rfl, rfl, fun q hq => Or.inl hq,
      fun u hu => absurd hu (by simp [prepZones]), fun j hj => absurd hj (by simp [prepZones])⟩
  | cons i rest ih =>
    intro st
    obtain ⟨ih1, ih2, ih3, ih4, ih5, ih6⟩ := ih (prepZone env st i).1
    rw [prepZones_cons]
    by_cases hk : (getZone st i).isKeepout = true
    · rw [prepZone_keepout_case env hk]  -- only rewrites inner occurrences
      refine ⟨?_, ?_, ?_, ?_, ?_, ?_⟩
      · intro j hj
        have := ih1 j (by rw [prepZone_keepout_case env hk]; exact hj)
        rw [prepZone_keepout_case env hk] at this
        exact this
      · intro j
        have := ih2 j
        rw [prepZone_keepout_case env hk] at this
        exact this
      · have := ih3
        rw [prepZone_keepout_case env hk] at this
        exact this
      · intro q hq
        rw [prepZone_keepout_case env hk] at ih4
        exact ih4 q hq
      · intro u hu
        rw [prepZone_keepout_case env hk] at ih5
        simp only [List.nil_append] at hu ⊢
        exact ih5 u hu
      · intro j hj
        rw [prepZone_keepout_case env hk] at ih6
        simp only [List.nil_append] at hj ⊢
        exact ih6 j hj
    · have hk2 : (getZone st i).isKeepout = false := by simpa using hk
      refine ⟨?_, ?_, ?_, ?_, ?_, ?_⟩
      · intro j hj
        have hij : i ≠ j := by
          intro hE
          rw [hE] at hk2
          rw [hk2] at hj
          cases hj
        have step1 : getZone (prepZone env st i).1 j = getZone st j :=
          prepZone_getZone_ne env st i hij
        have hj2 : (getZone (prepZone env st i).1 j).isKeepout = true := by
          rw [step1]; exact hj
        exact (ih1 j hj2).trans step1
      · intro j
        exact (ih2 j).trans (prepZone_isKeepout env st i j)
      · exact ih3.trans (prepZone_length env st i)
      · intro q hq
        rcases ih4 q hq with hmem | hko
        · rw [prepZone_commits env st i, hk2] at hmem
          simp only [Bool.false_eq_true, if_false, List.mem_append, List.mem_singleton] at hmem
          rcases hmem with hmem | rfl
          · exact Or.inl hmem
          · exact Or.inr hk2
        · exact Or.inr (by rw [← prepZone_isKeepout env st i q.1]; exact hko)
      · intro u hu
        rcases List.mem_append.mp hu with hu | hu
        · rw [prepZone_live_case env hk2] at hu
          simp only [List.mem_map] at hu
          rcases hu with ⟨l, _, rfl⟩
          exact hk2
        · have := ih5 u hu
          rw [prepZone_isKeepout env st i u.1] at this
          exact this
      · intro j hj
        rcases List.mem_append.mp hj with hj | hj
        · rw [prepZone_live_case env hk2] at hj
          simp only [List.mem_singleton] at hj
          subst hj
          exact hk2
        · have := ih6 j hj
          rw [prepZone_isKeepout env st i j] at this
          exact this

/-- Commit-rollback facts about the preparation loop, for distinct zone
indices not yet registered: registration is monotone, registered keys
stay distinct, every new snapshot is the state the zone had when the
loop started (i.e. before any mutation of that zone), unregistered zones
are untouched, and every work / island entry is registered. -/
theorem prepZones_inv : ∀ (idxs : List Nat) (st : FillSt),
    idxs.Nodup → (∀ k ∈ idxs, k ∉ regKeys st) →
    (∀ k ∈ regKeys st, k ∈ regKeys (prepZones env idxs st).1)
    ∧ ((regKeys st).Nodup → (regKeys (prepZones env idxs st).1).Nodup)
    ∧ (∀ q ∈ (prepZones env idxs st).1.commits,
        q ∈ st.commits ∨ (q.1 ∈ idxs ∧ q.2 = getZone st q.1))
    ∧ (∀ j, j ∉ regKeys (prepZones env idxs st).1 →
        getZone (prepZones env idxs st).1 j = getZone st j)
    ∧ (∀ u ∈ (prepZones env idxs st).2.1, u.1 ∈ regKeys (prepZones env idxs st).1)
    ∧ (∀ j ∈ (prepZones env idxs st).2.2, j ∈ regKeys (prepZones env idxs st).1) := by
  intro idxs
  induction idxs with
  | nil =>
    intro st _ _
    refine ⟨fun k hk => hk, fun h => h, fun q hq => Or.inl hq, fun j _ => rfl,
      fun u hu => absurd hu (by simp [prepZones]), fun j hj => absurd hj (by simp [prepZones])⟩
  | cons i rest ih =>
    intro st hnd hdisj
    have hndR : rest.Nodup := (List.nodup_cons.mp hnd).2
    have hiR : i ∉ rest := (List.nodup_cons.mp hnd).1
    by_cases hk : (getZone st i).isKeepout = true
    · -- the head zone is a keepout: prepZone is the identity on the state
      rw [prepZones_cons, prepZone_keepout_case env hk]
      simp only [List.nil_append]
      obtain ⟨j1, j2, j3, j4, j5, j6⟩ := ih st hndR
        (fun k hkR => hdisj k (List.mem_cons_of_mem _ hkR))
      refine ⟨j1, j2, ?_, j4, j5, j6⟩
      intro q hq
      rcases j3 q hq with hmem | ⟨hqk, hsnap⟩
      · exact Or.inl hmem
      · exact Or.inr ⟨List.mem_cons_of_mem _ hqk, hsnap⟩
    · have hk2 : (getZone st i).isKeepout = false := by simpa using hk
      have hcom : (prepZone env st i).1.commits = st.commits ++ [(i, getZone st i)] := by
        rw [prepZone_commits env st i, hk2]
        rfl
      have hreg : regKeys (prepZone env st i).1 = regKeys st ++ [i] := by
        unfold regKeys
        rw [hcom]
        simp
      obtain ⟨j1, j2, j3, j4, j5, j6⟩ := ih (prepZone env st i).1 hndR
        (by
          intro k hkR
          rw [hreg]
          simp only [List.mem_append, List.mem_singleton]
          push_neg
          exact ⟨hdisj k (List.mem_cons_of_mem _ hkR), fun hE => hiR (hE ▸ hkR)⟩)
      rw [prepZones_cons]
      refine ⟨?_, ?_, ?_, ?_, ?_, ?_⟩
      · intro k hkS
        exact j1 k (by rw [hreg]; exact List.mem_append_left _ hkS)
      · intro hnd0
        refine j2 ?_
        rw [hreg]
        have hiK : i ∉ regKeys st := hdisj i (List.mem_cons_self i rest)
        simp only [List.nodup_append, List.nodup_singleton]
        exact ⟨hnd0, by simp, by
          intro a ha
          simp only [List.mem_singleton]
          intro hE
          exact hiK (hE ▸ ha)⟩
      · intro q hq
        rcases j3 q hq with hmem | ⟨hqk, hsnap⟩
        · rw [hcom] at hmem
          rcases List.mem_append.mp hmem with hmem | hmem
          · exact Or.inl hmem
          · simp only [List.mem_singleton] at hmem
            subst hmem
            exact Or.inr ⟨List.mem_cons_self i rest, rfl⟩
        · have hqi : i ≠ q.1 := fun hE => hiR (hE ▸ hqk)
          exact Or.inr ⟨List.mem_cons_of_mem _ hqk,
            hsnap.trans (prepZone_getZone_ne env st i hqi)⟩
      · intro j hj
        have hj1 : j ∉ regKeys (prepZone env st i).1 := by
          intro hc
          exact hj (j1 j hc)
        have hstep := j4 j hj
        have hij : i ≠ j := by
          intro hE
          subst hE
          rw [hreg] at hj1
          exact hj1 (by simp)
        exact hstep.trans (prepZone_getZone_ne env st i hij)
      · intro u hu
        rcases List.mem_append.mp hu with hu | hu
        · rw [prepZone_live_case env hk2] at hu
          simp only [List.mem_map] at hu
          rcases hu with ⟨l, _, rfl⟩
          exact j1 i (by rw [hreg]; simp)
        · exact j5 u hu
      · intro j hj
        rcases List.mem_append.mp hj with hj | hj
        · rw [prepZone_live_case env hk2] at hj
          simp only [List.mem_singleton] at hj
          subst hj
          exact j1 j (by rw [hreg]; simp)
        · exact j6 j hj

/-! ### FillInv preservation and rollback -/

theorem fillInv_checkCancel {init st : FillSt} (h : FillInv init st) :
    FillInv init (checkCancel env st).2 := h

theorem fillInv_workLoop {init st : FillSt} (us : List (Nat × Nat))
    (hInv : FillInv init st) (hu : ∀ u ∈ us, u.1 ∈ regKeys st) :
    FillInv init (workLoop env us st) := by
  obtain ⟨hl, hnd, hsnap, hfresh⟩ := hInv
  refine ⟨?_, ?_, ?_, ?_⟩
  · rw [workLoop_length]
    exact hl
  · show ((workLoop env us st).commits.map Prod.fst).Nodup
    rw [workLoop_commits]
    exact hnd
  · intro q hq
    rw [workLoop_commits] at hq
    exact hsnap q hq
  · intro j hj
    have hj2 : j ∉ regKeys st := by
      show j ∉ (st.commits.map Prod.fst)
      rw [← workLoop_commits env us st]
      exact hj
    rw [workLoop_getZone_ne env us st
      (fun u hu2 hE => hj2 (by rw [← hE]; exact hu u hu2))]
    exact hfresh j hj2

theorem fillInv_islandLoop (aCheck : Bool) {init st : FillSt}
    (us : List (Nat × Nat)) (ood : Bool)
    (hInv : FillInv init st) (hu : ∀ u ∈ us, u.1 ∈ regKeys st) :
    FillInv init (islandLoop env aCheck us st ood).2.1 := by
  obtain ⟨hl, hnd, hsnap, hfresh⟩ := hInv
  refine ⟨?_, ?_, ?_, ?_⟩
  · rw [islandLoop_length]
    exact hl
  · show ((islandLoop env aCheck us st ood).2.1.commits.map Prod.fst).Nodup
    rw [islandLoop_commits]
    exact hnd
  · intro q hq
    rw [islandLoop_commits] at hq
    exact hsnap q hq
  · intro j hj
    have hj2 : j ∉ regKeys st := by
      show j ∉ (st.commits.map Prod.fst)
      rw [← islandLoop_commits env aCheck us st ood]
      exact hj
    rw [islandLoop_getZone_ne env aCheck us st ood
      (fun u hu2 hE => hj2 (by rw [← hE]; exact hu u hu2))]
    exact hfresh j hj2

theorem fillInv_triLoop {init st : FillSt} (is : List Nat)
    (hInv : FillInv init st) (hu : ∀ i ∈ is, i ∈ regKeys st) :
    FillInv init (triLoop env is st) := by
  obtain ⟨hl, hnd, hsnap, hfresh⟩ := hInv
  refine ⟨?_, ?_, ?_, ?_⟩
  · rw [triLoop_length]
    exact hl
  · show ((triLoop env is st).commits.map Prod.fst).Nodup
    rw [triLoop_commits]
    exact hnd
  · intro q hq
    rw [triLoop_commits] at hq
    exact hsnap q hq
  · intro j hj
    have hj2 : j ∉ regKeys st := by
      show j ∉ (st.commits.map Prod.fst)
      rw [← triLoop_commits env is st]
      exact hj
    rw [triLoop_getZone_ne env is st
      (fun k hk hE => hj2 (by rw [← hE]; exact hu k hk))]
    exact hfresh j hj2

theorem list_eq_of_getD {zs ws : List ZoneSt} (hl : zs.length = ws.length)
    (h : ∀ j, zs.getD j default = ws.getD j default) : zs = ws := by
  apply List.ext_getElem hl
  intro i h1 h2
  have := h i
  rwa [List.getD_eq_getElem zs default h1, List.getD_eq_getElem ws default h2] at this

/-- Replaying distinct snapshots over a list in which every
non-snapshotted position is already pristine restores the initial list. -/
theorem revert_restores (init : FillSt) :
    ∀ (cs : List (Nat × ZoneSt)) (zs : List ZoneSt),
    (cs.map Prod.fst).Nodup →
    (∀ q ∈ cs, q.2 = getZone init q.1) →
    (∀ j, j ∉ cs.map Prod.fst → zs.getD j default = getZone init j) →
    zs.length = init.zones.length →
    cs.foldl (fun acc q => acc.set q.1 q.2) zs = init.zones := by
  intro cs
  induction cs with
  | nil =>
    intro zs _ _ hfresh hlen
    simp only [List.foldl_nil]
    exact list_eq_of_getD hlen (fun j => hfresh j (by simp))
  | cons q cs ih =>
    intro zs hnd hsnap hfresh hlen
    simp only [List.foldl_cons]
    apply ih
    · exact (List.nodup_cons.mp (by simpa using hnd)).2
    · exact fun r hr => hsnap r (List.mem_cons_of_mem _ hr)
    · intro j hj
      by_cases hqj : q.1 = j
      · subst hqj
        by_cases hlt : q.1 < zs.length
        · rw [List.getD_eq_getElem?_getD, List.getElem?_set_eq_of_lt _ hlt, Option.getD_some]
          exact hsnap q (List.mem_cons_self q cs)
        · rw [List.set_eq_of_length_le (by omega)]
          have h1 : zs.getD q.1 default = default :=
            List.getD_eq_default zs default (by omega)
          have h2 : getZone init q.1 = default := by
            unfold getZone
            exact List.getD_eq_default init.zones default (by omega)
          rw [h1, h2]
      · rw [List.getD_eq_getElem?_getD, List.getElem?_set_ne hqj,
          ← List.getD_eq_getElem?_getD]
        exact hfresh j (by
          simp only [List.map_cons, List.mem_cons]
          push_neg
          exact ⟨fun hE => hqj hE.symm, hj⟩)
    · rw [List.length_set]
      exact hlen

theorem fillInv_fillFinish {init st : FillSt} (h : FillInv init st) :
    FillInv init (fillFinish env st).2 := by
  unfold fillFinish
  by_cases hC : (checkCancel env st).1 = true
  · rw [if_pos hC]
    exact h
  · rw [if_neg hC]
    exact h

theorem fillInv_fillPost (aCheck : Bool) (islIdxs : List Nat)
    {init : FillSt} (il : Bool × FillSt × Bool)
    (hInv : FillInv init il.2.1) (hk : ∀ i ∈ islIdxs, i ∈ regKeys il.2.1) :
    FillInv init (fillPost env aCheck islIdxs il).2 := by
  unfold fillPost
  by_cases h1 : (!il.1) = true
  · rw [if_pos h1]
    exact hInv
  · rw [if_neg h1]
    by_cases h2 : (aCheck && il.2.2 && env.dialogCancel) = true
    · rw [if_pos h2]
      exact hInv
    · rw [if_neg h2]
      exact fillInv_fillFinish env (fillInv_triLoop env islIdxs hInv hk)

theorem fillInv_fillMain (aCheck : Bool) (toFill : List (Nat × Nat))
    (islIdxs : List Nat) {init st1 : FillSt}
    (hInv : FillInv init st1)
    (hu : ∀ u ∈ toFill, u.1 ∈ regKeys st1)
    (hk : ∀ i ∈ islIdxs, i ∈ regKeys st1) :
    FillInv init (fillMain env aCheck toFill islIdxs st1).2 := by
  unfold fillMain
  have hInvW : FillInv init (workLoop env toFill st1) :=
    fillInv_workLoop env toFill hInv hu
  have hkeysW : regKeys (workLoop env toFill st1) = regKeys st1 := by
    unfold regKeys
    rw [workLoop_commits]
  by_cases hC1 : (checkCancel env (workLoop env toFill st1)).1 = true
  · rw [if_pos hC1]
    exact hInvW
  · rw [if_neg hC1]
    by_cases hC2 : (checkCancel env (checkCancel env (workLoop env toFill st1)).2).1 = true
    · rw [if_pos hC2]
      exact hInvW
    · rw [if_neg hC2]
      have hkIsl : ∀ i ∈ islIdxs,
          i ∈ regKeys (checkCancel env (checkCancel env (workLoop env toFill st1)).2).2 := by
        intro i hi
        show i ∈ regKeys (workLoop env toFill st1)
        rw [hkeysW]
        exact hk i hi
      have hInvIL := @fillInv_islandLoop env aCheck init
        ((checkCancel env (checkCancel env (workLoop env toFill st1)).2).2)
        (islandUnits (checkCancel env (checkCancel env (workLoop env toFill st1)).2).2 islIdxs)
        false hInvW (fun u hu2 => hkIsl u.1 (islandUnits_key_mem hu2))
      have hkeysIL : regKeys (islandLoop env aCheck
          (islandUnits (checkCancel env (checkCancel env (workLoop env toFill st1)).2).2 islIdxs)
          (checkCancel env (checkCancel env (workLoop env toFill st1)).2).2 false).2.1
          = regKeys st1 := by
        unfold regKeys
        rw [islandLoop_commits]
        show ((workLoop env toFill st1).commits.map Prod.fst) = _
        rw [workLoop_commits]
      exact fillInv_fillPost env aCheck islIdxs _ hInvIL
        (by
          intro i hi
          rw [hkeysIL]
          exact hk i hi)

/-! ### fillMain frame lemmas -/

theorem fillFinish_commits (st : FillSt) :
    (fillFinish env st).2.commits = st.commits := by
  unfold fillFinish
  by_cases hC : (checkCancel env st).1 = true
  · rw [if_pos hC]
    rfl
  · rw [if_neg hC]
    rfl

theorem fillFinish_getZone (st : FillSt) (j : Nat) :
    getZone (fillFinish env st).2 j = getZone st j := by
  unfold fillFinish
  by_cases hC : (checkCancel env st).1 = true
  · rw [if_pos hC]
    rfl
  · rw [if_neg hC]
    rfl

theorem fillPost_commits (aCheck : Bool) (islIdxs : List Nat) (il : Bool × FillSt × Bool) :
    (fillPost env aCheck islIdxs il).2.commits = il.2.1.commits := by
  unfold fillPost
  by_cases h1 : (!il.1) = true
  · rw [if_pos h1]
  · rw [if_neg h1]
    by_cases h2 : (aCheck && il.2.2 && env.dialogCancel) = true
    · rw [if_pos h2]
    · rw [if_neg h2, fillFinish_commits, triLoop_commits]

theorem fillPost_getZone_ne (aCheck : Bool) (islIdxs : List Nat)
    (il : Bool × FillSt × Bool) {j : Nat} (hk : ∀ i ∈ islIdxs, i ≠ j) :
    getZone (fillPost env aCheck islIdxs il).2 j = getZone il.2.1 j := by
  unfold fillPost
  by_cases h1 : (!il.1) = true
  · rw [if_pos h1]
  · rw [if_neg h1]
    by_cases h2 : (aCheck && il.2.2 && env.dialogCancel) = true
    · rw [if_pos h2]
    · rw [if_neg h2, fillFinish_getZone, triLoop_getZone_ne env islIdxs _ hk]

theorem fillMain_commits (aCheck : Bool) (toFill : List (Nat × Nat))
    (islIdxs : List Nat) (st1 : FillSt) :
    (fillMain env aCheck toFill islIdxs st1).2.commits = st1.commits := by
  unfold fillMain
  by_cases hC1 : (checkCancel env (workLoop env toFill st1)).1 = true
  · rw [if_pos hC1]
    show (workLoop env toFill st1).commits = st1.commits
    exact workLoop_commits env toFill st1
  · rw [if_neg hC1]
    by_cases hC2 : (checkCancel env (checkCancel env (workLoop env toFill st1)).2).1 = true
    · rw [if_pos hC2]
      show (workLoop env toFill st1).commits = st1.commits
      exact workLoop_commits env toFill st1
    · rw [if_neg hC2, fillPost_commits, islandLoop_commits]
      show (workLoop env toFill st1).commits = st1.commits
      exact workLoop_commits env toFill st1

theorem fillMain_getZone_ne (aCheck : Bool) (toFill : List (Nat × Nat))
    (islIdxs : List Nat) (st1 : FillSt) {j : Nat}
    (hu : ∀ u ∈ toFill, u.1 ≠ j) (hk : ∀ i ∈ islIdxs, i ≠ j) :
    getZone (fillMain env aCheck toFill islIdxs st1).2 j = getZone st1 j := by
  unfold fillMain
  by_cases hC1 : (checkCancel env (workLoop env toFill st1)).1 = true
  · rw [if_pos hC1]
    exact workLoop_getZone_ne env toFill st1 hu
  · rw [if_neg hC1]
    by_cases hC2 : (checkCancel env (checkCancel env (workLoop env toFill st1)).2).1 = true
    · rw [if_pos hC2]
      exact workLoop_getZone_ne env toFill st1 hu
    · rw [if_neg hC2, fillPost_getZone_ne env aCheck islIdxs _ hk,
        islandLoop_getZone_ne env aCheck _ _ _
          (fun u hu2 => hk u.1 (islandUnits_key_mem hu2))]
      exact workLoop_getZone_ne env toFill st1 hu

/-- Every exit of `zoneFill` satisfies the rollback invariant: whatever
the result, the commit object holds pristine snapshots of exactly the
zones that may have been mutated. -/
theorem zoneFill_inv (aCheck : Bool) (idxs : List Nat) (st0 : FillSt)
    (hc : st0.commits = []) (hnd : idxs.Nodup) :
    FillInv st0 (zoneFill env aCheck idxs st0).2 := by
  have hInv0 : FillInv st0 st0 :=
    ⟨rfl, by simp [regKeys, hc], by simp [hc], fun j _ => rfl⟩
  by_cases hL : env.lockOk = true
  case neg =>
    have hL2 : env.lockOk = false := by simpa using hL
    unfold zoneFill
    rw [hL2]
    exact hInv0
  case pos =>
    unfold zoneFill
    rw [hL]
    simp only [Bool.not_true, Bool.false_eq_true, if_false]
    obtain ⟨j1, j2, j3, j4, j5, j6⟩ :=
      prepZones_inv env idxs st0 hnd (by simp [regKeys, hc])
    have hInv1 : FillInv st0 (prepZones env idxs st0).1 := by
      refine ⟨?_, j2 (by simp [regKeys, hc]), ?_, j4⟩
      · exact (prepZones_keepSpec env idxs st0).2.2.1
      · intro q hq
        rcases j3 q hq with hmem | ⟨_, hsnap⟩
        · rw [hc] at hmem
          cases hmem
        · exact hsnap
    exact fillInv_fillMain env aCheck _ _ hInv1 j5 j6

end FillLemmas

/-! ## Claim theorems: C1, C3, C10 -/

/-- Claim C1: for every invocation of `ZONE_FILLER::Fill` that returns
`false`, every mutation the filler made was registered with the commit
collaborator beforehand (the registered snapshot is the zone's pristine
pre-call state), so the caller's `Revert` restores the previous filled
state of every zone passed in — all-or-nothing over the whole zone set. -/
theorem c1_fill_rollback (env : FillEnv) (aCheck : Bool) (idxs : List Nat)
    (st0 : FillSt) (hc : st0.commits = []) (hnd : idxs.Nodup)
    (_hres : (zoneFill env aCheck idxs st0).1 = false) :
    applyRevert (zoneFill env aCheck idxs st0).2 = st0.zones := by
  obtain ⟨hl, hnd2, hsnap, hfresh⟩ := zoneFill_inv env aCheck idxs st0 hc hnd
  exact revert_restores st0 _ _ hnd2 hsnap (fun j hj => hfresh j hj) hl

theorem c1_fill_rollback_witness :
    witSt0.commits = [] ∧ ([0, 1] : List Nat).Nodup
    ∧ (zoneFill witEnvCancel false [0, 1] witSt0).1 = false
    ∧ applyRevert (zoneFill witEnvCancel false [0, 1] witSt0).2 = witSt0.zones :=
  ⟨rfl, by decide, by decide,
   c1_fill_rollback witEnvCancel false [0, 1] witSt0 rfl (by decide) (by decide)⟩

/-- Claim C3: `ZONE_FILLER::Fill` acquires the connectivity lock with a
non-blocking try-lock at the start of the call; if the lock is not
available it returns `false` immediately, with the entire state (every
zone, the commit object) untouched. -/
theorem c3_trylock_abort (env : FillEnv) (aCheck : Bool) (idxs : List Nat)
    (st0 : FillSt) (h : env.lockOk = false) :
    zoneFill env aCheck idxs st0 = (false, st0) := by
  unfold zoneFill
  rw [h]
  rfl

theorem c3_trylock_abort_witness :
    witEnvNoLock.lockOk = false
    ∧ zoneFill witEnvNoLock false [0, 1] witSt0 = (false, witSt0) :=
  ⟨rfl, c3_trylock_abort witEnvNoLock false [0, 1] witSt0 rfl⟩

/-- Claim C10: a zone whose keepout flag is set is never modified by
`ZONE_FILLER::Fill`: it is excluded from the work list, its hash is not
rebuilt, it is not unfilled, its whole state is unchanged on return, and
it is never registered with the commit object. -/
theorem c10_keepout_untouched (env : FillEnv) (aCheck : Bool) (idxs : List Nat)
    (st0 : FillSt) (i : Nat) (hc : st0.commits = [])
    (hk : (getZone st0 i).isKeepout = true) :
    getZone (zoneFill env aCheck idxs st0).2 i = getZone st0 i
    ∧ i ∉ regKeys (zoneFill env aCheck idxs st0).2 := by
  by_cases hL : env.lockOk = true
  case neg =>
    have hL2 : env.lockOk = false := by simpa using hL
    unfold zoneFill
    rw [hL2]
    exact ⟨rfl, by simp [regKeys, hc]⟩
  case pos =>
    unfold zoneFill
    rw [hL]
    simp only [Bool.not_true, Bool.false_eq_true, if_false]
    obtain ⟨k1, k2, k3, k4, k5, k6⟩ := prepZones_keepSpec env idxs st0
    have hu : ∀ u ∈ (prepZones env idxs st0).2.1, u.1 ≠ i := by
      intro u hu2 hE
      have := k5 u hu2
      rw [hE, hk] at this
      cases this
    have hkI : ∀ j ∈ (prepZones env idxs st0).2.2, j ≠ i := by
      intro j hj hE
      have := k6 j hj
      rw [hE, hk] at this
      cases this
    constructor
    · rw [fillMain_getZone_ne env aCheck _ _ _ hu hkI]
      exact k1 i hk
    · intro hreg
      unfold regKeys at hreg
      rw [fillMain_commits] at hreg
      rcases List.mem_map.mp hreg with ⟨q, hq, hqi⟩
      rcases k4 q hq with hmem | hko
      · rw [hc] at hmem
        cases hmem
      · rw [hqi, hk] at hko
        cases hko

theorem c10_keepout_untouched_witness :
    witSt0.commits = [] ∧ (getZone witSt0 1).isKeepout = true
    ∧ getZone (zoneFill witEnvQuiet false [0, 1] witSt0).2 1 = getZone witSt0 1
    ∧ 1 ∉ regKeys (zoneFill witEnvQuiet false [0, 1] witSt0).2 := by
  have h := c10_keepout_untouched witEnvQuiet false [0, 1] witSt0 1 rfl (by decide)
  exact ⟨rfl, by decide, h.1, h.2⟩

/-! ## Claim C6: island removal -/

/-- Claim C6 (counterexample): the claim reads the net-zone deletion test
as "the polygon has no point inside the board outline", but the source
tests only the sample point `poly.Polygon(idx).front().CPoint(0)`.  For
an island whose first vertex is outside the outline and whose other
vertices are inside, with removal mode `NEVER`, the code deletes the
polygon while the claim's reading keeps it. -/
theorem c6_island_removal_cx :
    (removeIslandsNet c6Env IslandRemovalMode.NEVER 0 [0] [c6Poly]).1 = []
    ∧ claimKeepFrom c6Env IslandRemovalMode.NEVER 0 [0] 0 [c6Poly] = [c6Poly] := by
  constructor
  · decide
  · decide

/-- Claim C6 (amended): in `Fill`'s post-processing, for a zone with net
code > 0, each polygon classified as an isolated island is deleted
exactly when the removal mode is `ALWAYS`, or the mode is `AREA` and the
island's outline area is below the zone's minimum island area, or the
polygon's sample point (first vertex of its first contour) is not inside
the board outline (`keepFrom` is that declarative survivor description);
in particular with mode `ALWAYS` every isolated region is dropped and
only non-island polygons survive.  For a zero-net copper zone with a
valid board outline, every surviving polygon has its sample point inside
the board outline (polygons sampled outside are deleted). -/
theorem c6_island_removal (env : IslandEnv) (mode : IslandRemovalMode)
    (minArea : Int) (islands : List Nat) (polys zeroNetPolys : List Poly)
    (hnd : islands.Nodup) (hb : ∀ i ∈ islands, i < polys.length) :
    (removeIslandsNet env mode minArea islands polys).1
      = keepFrom env mode minArea islands 0 polys
    ∧ ∀ p ∈ dropOutside env.contains zeroNetPolys, env.contains (samplePt p) = true :=
  ⟨removeIslandsNet_eq_keepFrom env mode minArea islands polys hnd hb,
   fun p hp => dropOutside_sound env.contains zeroNetPolys p hp⟩

theorem c6_island_removal_witness :
    ([1] : List Nat).Nodup
    ∧ (∀ i ∈ ([1] : List Nat), i < ([c6PolyA, c6PolyB] : List Poly).length)
    ∧ ((removeIslandsNet c6EnvTrue IslandRemovalMode.ALWAYS 0 [1] [c6PolyA, c6PolyB]).1
        = keepFrom c6EnvTrue IslandRemovalMode.ALWAYS 0 [1] 0 [c6PolyA, c6PolyB]
       ∧ ∀ p ∈ dropOutside c6EnvTrue.contains [c6PolyA],
           c6EnvTrue.contains (samplePt p) = true)
    ∧ (removeIslandsNet c6EnvTrue IslandRemovalMode.ALWAYS 0 [1] [c6PolyA, c6PolyB]).1
        = [c6PolyA] :=
  ⟨by decide, by decide,
   c6_island_removal c6EnvTrue IslandRemovalMode.ALWAYS 0 [1] [c6PolyA, c6PolyB]
     [c6PolyA] (by decide) (by decide),
   by decide⟩

/-! ## Claim C8: worker pool and atomic work distribution -/

theorem poolStep_fold_ok (unitCount : Nat) :
    ∀ (sched : List Nat) (st : PoolSt),
      (∀ q ∈ st.processed, q.2 < st.counter) →
      (st.processed.map Prod.snd).Nodup →
      (∀ q ∈ (sched.foldl (poolStep unitCount) st).processed,
          q.2 < (sched.foldl (poolStep unitCount) st).counter)
      ∧ ((sched.foldl (poolStep unitCount) st).processed.map Prod.snd).Nodup := by
  intro sched
  induction sched with
  | nil => intro st h1 h2; exact ⟨h1, h2⟩
  | cons w ws ih =>
    intro st h1 h2
    simp only [List.foldl_cons]
    apply ih
    · intro q hq
      unfold poolStep at hq ⊢
      show q.2 < st.counter + 1
      by_cases hc : st.counter < unitCount
      · rw [if_pos hc] at hq
        rcases List.mem_append.mp hq with hq | hq
        · have := h1 q hq
          omega
        · simp only [List.mem_singleton] at hq
          subst hq
          show st.counter < st.counter + 1
          omega
      · rw [if_neg hc] at hq
        have := h1 q hq
        omega
    · show ((if st.counter < unitCount then st.processed ++ [(w, st.counter)]
          else st.processed).map Prod.snd).Nodup
      by_cases hc : st.counter < unitCount
      · rw [if_pos hc, List.map_append]
        refine List.Nodup.append h2 (by simp) ?_
        intro a ha hb
        simp only [List.map_cons, List.map_nil, List.mem_singleton] at hb
        subst hb
        rcases List.mem_map.mp ha with ⟨q, hq, hqa⟩
        have := h1 q hq
        omega
      · rw [if_neg hc]
        exact h2

/-- Claim C8 (counterexample): the source sizes the worker pool with
`aZones.size()`, the number of zones passed in — not the number of
(zone, layer) fill units.  A single zone on two copper layers yields
two units but a pool of one, while the claim's formula says two. -/
theorem c8_worker_pool_cx :
    parallelThreadCount 4 [0] = 1
    ∧ min 4 (prepZones witEnvQuiet [0] c8St).2.1.length = 2 := by
  constructor
  · decide
  · decide

/-- Claim C8 (amended): `Fill` sizes its worker pool to the minimum of
the hardware concurrency and the number of zones in the argument list
(not the unit count), and each worker obtains the index of the next
unit from the single shared atomic counter, so under every interleaving
of the workers' fetches every (zone, layer) unit is processed at most
once. -/
theorem c8_worker_pool (hw : Nat) (idxs : List Nat) (unitCount : Nat)
    (sched : List Nat) :
    parallelThreadCount hw idxs = min hw idxs.length
    ∧ ((runSchedule unitCount sched).processed.map Prod.snd).Nodup := by
  constructor
  · rfl
  · exact (poolStep_fold_ok unitCount sched { counter := 0, processed := [] }
      (by intro q hq; cases hq) (by simp)).2

/-! ## Claim C2: StartRouting -/

/-- Claim C2 (counterexample): when the DRC pre-check passes but the
placer's `Start` fails, `StartRouting` returns `false` and stays
`IDLE`, but no failure reason is reported — the claim's "otherwise …
a failure reason is reported" is false on this input. -/
theorem c2_start_routing_cx :
    (startRouting c2EnvPlacerFail c2Router0 (0, 0) 0).1 = false
    ∧ (startRouting c2EnvPlacerFail c2Router0 (0, 0) 0).2.state = RouterState.IDLE
    ∧ (startRouting c2EnvPlacerFail c2Router0 (0, 0) 0).2.failureReason = none := by
  refine ⟨?_, ?_, ?_⟩
  · decide
  · decide
  · decide

/-- Claim C2 (amended): from `IDLE`, `StartRouting` transitions to
`ROUTE_TRACK` (and returns `true`) exactly when the starting point
passes the DRC-routability pre-check (`isStartingPointRoutable`: no
non-routable item overlapping the target layer at the point unless the
settings tolerate violations, and no collision of the dummy start
segment in single-track mode) and the selected placer's `Start`
succeeds.  When the pre-check fails, it returns `false`, stays `IDLE`,
and reports the DRC failure reason; when only the placer's `Start`
fails, it returns `false` and stays `IDLE`, but no failure reason is
set. -/
theorem c2_start_routing (env : RouterEnv) (r : RouterSt) (aP : Pt) (aLayer : Int)
    (hIdle : r.state = RouterState.IDLE) :
    ((startRouting env r aP aLayer).1 = true
        ↔ (isStartingPointRoutable env r aLayer = true ∧ env.placerStartOk = true))
    ∧ ((startRouting env r aP aLayer).2.state = RouterState.ROUTE_TRACK
        ↔ (isStartingPointRoutable env r aLayer = true ∧ env.placerStartOk = true))
    ∧ (isStartingPointRoutable env r aLayer = false →
        (startRouting env r aP aLayer).1 = false
        ∧ (startRouting env r aP aLayer).2.state = RouterState.IDLE
        ∧ (startRouting env r aP aLayer).2.failureReason = some drcFailureMessage)
    ∧ (isStartingPointRoutable env r aLayer = true → env.placerStartOk = false →
        (startRouting env r aP aLayer).1 = false
        ∧ (startRouting env r aP aLayer).2.state = RouterState.IDLE
        ∧ (startRouting env r aP aLayer).2.failureReason = r.failureReason) := by
  by_cases hr : isStartingPointRoutable env r aLayer = true
  · by_cases hp : env.placerStartOk = true
    · have hsr : startRouting env r aP aLayer
          = (true, { r with forceMarkObstaclesMode := false,
                            placer := some (placerOf r.mode),
                            currentEnd := aP, state := RouterState.ROUTE_TRACK }) := by
        unfold startRouting
        rw [hr, hp]
        rfl
      rw [hsr]
      refine ⟨by simp [hr, hp], by simp [hr, hp], ?_, ?_⟩
      · intro hfalse
        rw [hr] at hfalse
        cases hfalse
      · intro _ hfalse
        rw [hp] at hfalse
        cases hfalse
    · have hp2 : env.placerStartOk = false := by simpa using hp
      have hsr : startRouting env r aP aLayer
          = (false, { r with forceMarkObstaclesMode := false,
                             placer := some (placerOf r.mode) }) := by
        unfold startRouting
        rw [hr, hp2]
        rfl
      rw [hsr]
      refine ⟨by simp [hp2], ?_, ?_, fun _ _ => ⟨rfl, hIdle, rfl⟩⟩
      · constructor
        · intro hstate
          simp only [] at hstate
          rw [hIdle] at hstate
          cases hstate
        · intro hpair
          rw [hp2] at hpair
          cases hpair.2
      · intro hfalse
        rw [hr] at hfalse
        cases hfalse
  · have hr2 : isStartingPointRoutable env r aLayer = false := by simpa using hr
    have hsr : startRouting env r aP aLayer
        = (false, { r with failureReason := some drcFailureMessage }) := by
      unfold startRouting
      rw [hr2]
      rfl
    rw [hsr]
    refine ⟨by simp [hr2], ?_, fun _ => ⟨rfl, hIdle, rfl⟩, ?_⟩
    · constructor
      · intro hstate
        simp only [] at hstate
        rw [hIdle] at hstate
        cases hstate
      · intro hpair
        rw [hr2] at hpair
        cases hpair.1
    · intro hfalse
      rw [hr2] at hfalse
      cases hfalse

theorem c2_start_routing_witness :
    c2Router0.state = RouterState.IDLE
    ∧ (startRouting c2EnvEmptyOk c2Router0 (0, 0) 0).2.state = RouterState.ROUTE_TRACK
    ∧ (startRouting c2EnvForeign c2Router0 (0, 0) 0).1 = false
    ∧ (startRouting c2EnvForeign c2Router0 (0, 0) 0).2.failureReason
        = some drcFailureMessage :=
  ⟨rfl,
   ((c2_start_routing c2EnvEmptyOk c2Router0 (0, 0) 0 rfl).2.1).mpr
     ⟨by decide, by decide⟩,
   ((c2_start_routing c2EnvForeign c2Router0 (0, 0) 0 rfl).2.2.1 (by decide)).1,
   ((c2_start_routing c2EnvForeign c2Router0 (0, 0) 0 rfl).2.2.1 (by decide)).2.2⟩

/-! ## Claim C4: spoke survival test -/

/-- With a never-cancelling reporter, the spoke-survival loop runs to
completion and adds exactly the spokes whose test point is in the test
area or inside some other spoke, in order. -/
theorem spokeLoopGo_no_cancel (testArea : Pt → Bool) (all : List Spoke)
    (hasReporter : Bool) (cancel : Nat → Bool) (hnc : ∀ k, cancel k = false) :
    ∀ (rest : List (Nat × Spoke)) (interval tick : Nat) (added : List Nat),
      (spokeLoopGo testArea all hasReporter cancel rest interval tick added).1 = true
      ∧ (spokeLoopGo testArea all hasReporter cancel rest interval tick added).2.2
          = added ++ (rest.filter (fun q => testArea (spokeTestPt q.2)
              || otherSpokeHit all q.1 (spokeTestPt q.2))).map Prod.fst := by
  intro rest
  induction rest with
  | nil =>
    intro interval tick added
    exact ⟨rfl, by simp [spokeLoopGo]⟩
  | cons q rest ih =>
    intro interval tick added
    by_cases ht : testArea (spokeTestPt q.2) = true
    · rw [spokeLoopGo, if_pos ht]
      obtain ⟨g1, g2⟩ := ih interval tick (added ++ [q.1])
      refine ⟨g1, ?_⟩
      rw [g2, List.filter_cons]
      simp only [ht, Bool.true_or, if_true, List.map_cons, List.append_assoc,
        List.singleton_append]
    · have ht2 : testArea (spokeTestPt q.2) = false := by simpa using ht
      have hfc : (List.filter (fun q => testArea (spokeTestPt q.2)
            || otherSpokeHit all q.1 (spokeTestPt q.2)) (q :: rest))
          = if otherSpokeHit all q.1 (spokeTestPt q.2) then
              q :: List.filter (fun q => testArea (spokeTestPt q.2)
                || otherSpokeHit all q.1 (spokeTestPt q.2)) rest
            else List.filter (fun q => testArea (spokeTestPt q.2)
                || otherSpokeHit all q.1 (spokeTestPt q.2)) rest := by
        rw [List.filter_cons]
        simp only [ht2, Bool.false_or]
      by_cases hi : interval > 400
      · rw [spokeLoopGo, if_neg (by simp [ht2]), if_pos hi, hnc tick,
          Bool.and_false]
        simp only [Bool.false_eq_true, if_false]
        by_cases hh : otherSpokeHit all q.1 (spokeTestPt q.2) = true
        · rw [if_pos hh]
          obtain ⟨g1, g2⟩ := ih 0 (tick + 1) (added ++ [q.1])
          refine ⟨g1, ?_⟩
          rw [g2, hfc, if_pos hh]
          simp [List.append_assoc]
        · rw [if_neg hh]
          obtain ⟨g1, g2⟩ := ih 0 (tick + 1) added
          refine ⟨g1, ?_⟩
          rw [g2, hfc, if_neg hh]
      · rw [spokeLoopGo, if_neg (by simp [ht2]), if_neg hi]
        by_cases hh : otherSpokeHit all q.1 (spokeTestPt q.2) = true
        · rw [if_pos hh]
          obtain ⟨g1, g2⟩ := ih (interval + 1) tick (added ++ [q.1])
          refine ⟨g1, ?_⟩
          rw [g2, hfc, if_pos hh]
          simp [List.append_assoc]
        · rw [if_neg hh]
          obtain ⟨g1, g2⟩ := ih (interval + 1) tick added
          refine ⟨g1, ?_⟩
          rw [g2, hfc, if_neg hh]

/-- Claim C4 (counterexample): the claim describes the test area as
"(smoothed outline minus clearance holes), minimum-width-pruned", but
the source builds it from the working area after the thermal-relief
knockout.  With the thermal relief covering a spoke's test point (and
min thickness 0, so the source itself skips the pruning round trip),
the code rejects the spoke while the claim's test area accepts it. -/
theorem c4_spoke_survival_cx :
    (spokeFilter (fun p => codeTestArea c4Ge 0 6 p) c4Ge.spokes c4Ge.hasReporter
        c4Ge.cancel).2 = []
    ∧ (spokeFilter (fun p => claimTestArea c4Ge 0 6 p) c4Ge.spokes c4Ge.hasReporter
        c4Ge.cancel).2 = [0] := by
  constructor
  · decide
  · decide

/-- Claim C4 (amended): in the copper fill pipeline, when no cancellation
fires, a generated thermal spoke is added to the raw fill polygon set
if and only if its designated test point (`CPoint(3)`, the sample on
the relief boundary) lies inside the minimum-width-pruned test area —
smoothed outline minus thermal reliefs minus clearance holes — or lies
inside some other candidate spoke's closed shape: the survival loop
returns exactly the declarative survivor list. -/
theorem c4_spoke_survival (ge : CopperEnv) (minThickness : Int) (numSegs : Nat)
    (hasReporter : Bool) (cancel : Nat → Bool) (hnc : ∀ k, cancel k = false) :
    spokeFilter (fun p => codeTestArea ge minThickness numSegs p) ge.spokes
        hasReporter cancel
      = (true, spokeSurvivors (fun p => codeTestArea ge minThickness numSegs p)
          ge.spokes) := by
  obtain ⟨g1, g2⟩ := spokeLoopGo_no_cancel
    (fun p => codeTestArea ge minThickness numSegs p) ge.spokes hasReporter cancel hnc
    (enumFrom 0 ge.spokes) 0 0 []
  unfold spokeFilter spokeSurvivors
  rw [g1, g2]
  simp

theorem c4_spoke_survival_witness :
    (∀ k, c4Ge.cancel k = false)
    ∧ spokeFilter (fun p => codeTestArea c4Ge 0 6 p) c4Ge.spokes c4Ge.hasReporter
        c4Ge.cancel
      = (true, spokeSurvivors (fun p => codeTestArea c4Ge 0 6 p) c4Ge.spokes) :=
  ⟨fun _ => rfl, c4_spoke_survival c4Ge 0 6 c4Ge.hasReporter c4Ge.cancel (fun _ => rfl)⟩

/-! ## Claim C5: thermal spoke generation -/

theorem boxInflate_add (b : Box) (d e : Int) :
    boxInflate b (d + e) = boxInflate (boxInflate b d) e := by
  simp only [boxInflate, Box.mk.injEq]
  omega

theorem boxIntersects_inflate {a b : Box} {d e : Int}
    (h : boxIntersects a b = true) (hd : 0 ≤ d) (he : 0 ≤ e) :
    boxIntersects (boxInflate a d) (boxInflate b e) = true := by
  simp only [boxIntersects, boxInflate, decide_eq_true_eq] at h ⊢
  omega

theorem hasThermalConnection_bbox {pad : Pad} {z : SpokeZone}
    (h : hasThermalConnection pad z = true) :
    boxIntersects (boxInflate pad.bbox pad.thermalGap) z.bbox = true := by
  unfold hasThermalConnection at h
  by_cases h1 : pad.connection = ZoneConnection.THT_THERMAL
      ∧ pad.attrib ≠ PadAttrib.STANDARD
  · rw [if_pos h1] at h
    cases h
  · rw [if_neg h1] at h
    by_cases h2 : pad.connection ≠ ZoneConnection.THERMAL
        ∧ pad.connection ≠ ZoneConnection.THT_THERMAL
    · rw [if_pos h2] at h
      cases h
    · rw [if_neg h2] at h
      by_cases h3 : pad.netCode ≠ z.netCode ∨ pad.netCode ≤ 0
      · rw [if_pos h3] at h
        cases h
      · rw [if_neg h3] at h
        exact h

/-- Claim C5: for every thermally-connected pad present on the fill
layer (with a non-negative design clearance bound), `buildThermalSpokes`
generates exactly the four stubs — oriented with the pad, at 45° (450
decidegrees) for circular pads, built from the spoke width clamped to
the smaller of the pad's two dimensions — and generates zero stubs when
the clamped width does not exceed the zone's minimum thickness. -/
theorem c5_thermal_spokes (z : SpokeZone) (pad : Pad)
    (hconn : hasThermalConnection pad z = true) (hlayer : pad.onLayer = true)
    (hbc : 0 ≤ z.bdsBiggestClearance) :
    (min (min pad.spokeWConfig pad.sizeX) pad.sizeY ≤ z.minThickness →
       spokesForPad z pad = [])
    ∧ (z.minThickness < min (min pad.spokeWConfig pad.sizeX) pad.sizeY →
       (spokesForPad z pad = spokeStubs pad (min (min pad.spokeWConfig pad.sizeX) pad.sizeY)
        ∧ (spokesForPad z pad).length = 4
        ∧ ∀ s ∈ spokesForPad z pad,
            s.angleDeciDeg = (if pad.shape = PadShape.CIRCLE then 450 else pad.orientation)
            ∧ s.pos = pad.shapePos)) := by
  have hbb : boxIntersects (boxInflate pad.bbox (pad.thermalGap + spokeEpsilon))
      (boxInflate z.bbox (max z.bdsBiggestClearance z.zoneClearance)) = true := by
    rw [boxInflate_add]
    exact boxIntersects_inflate (hasThermalConnection_bbox hconn)
      (by unfold spokeEpsilon; omega)
      (le_trans hbc (le_max_left _ _))
  constructor
  · intro hle
    unfold spokesForPad
    rw [hconn, hlayer]
    simp only [Bool.not_true, Bool.false_eq_true, if_false]
    rw [if_pos hle]
  · intro hlt
    have heq : spokesForPad z pad
        = spokeStubs pad (min (min pad.spokeWConfig pad.sizeX) pad.sizeY) := by
      unfold spokesForPad
      rw [hconn, hlayer]
      simp only [Bool.not_true, Bool.false_eq_true, if_false]
      rw [if_neg (not_le.mpr hlt), hbb]
      simp only [Bool.not_true, Bool.false_eq_true, if_false]
    refine ⟨heq, ?_, ?_⟩
    · rw [heq]
      simp [spokeStubs]
    · intro s hs
      rw [heq] at hs
      simp only [spokeStubs, List.mem_cons, List.not_mem_nil, or_false] at hs
      rcases hs with rfl | rfl | rfl | rfl
      · exact ⟨rfl, rfl⟩
      · exact ⟨rfl, rfl⟩
      · exact ⟨rfl, rfl⟩
      · exact ⟨rfl, rfl⟩

theorem c5_thermal_spokes_witness :
    hasThermalConnection c5Pad c5Zone = true
    ∧ c5Pad.onLayer = true
    ∧ 0 ≤ c5Zone.bdsBiggestClearance
    ∧ (spokesForPad c5Zone c5Pad).length = 4
    ∧ ∀ s ∈ spokesForPad c5Zone c5Pad, s.angleDeciDeg = 450 := by
  have h := c5_thermal_spokes c5Zone c5Pad (by decide) (by decide) (by decide)
  have h4 := (h.2 (by decide)).2.1
  have hang := (h.2 (by decide)).2.2
  refine ⟨by decide, by decide, by decide, h4, ?_⟩
  intro s hs
  have := (hang s hs).1
  simpa using this

/-! ## Claim C7: non-copper fill pipeline -/

/-- Claim C7 (counterexample): for a 0.2 mm minimum-thickness non-copper
zone, the source deflates by the full half width (100000 IU; the
`- epsilon` is commented out) and re-inflates by the half width minus
epsilon (99000 IU), so the deflate and re-inflate amounts differ and
both differ from the claim's "deflate by half min-thickness minus
epsilon, re-inflate by the same amount". -/
theorem c7_noncopper_cx :
    (fillNonCopper c7Zone).1
      = PolyTerm.deflate (-99000) 6 (PolyTerm.deflate 100000 6 PolyTerm.base)
    ∧ (claimNonCopper c7Zone).1
      = PolyTerm.deflate (-99000) 6 (PolyTerm.deflate 99000 6 PolyTerm.base)
    ∧ fillNonCopper c7Zone ≠ claimNonCopper c7Zone := by
  refine ⟨?_, ?_, ?_⟩
  · decide
  · decide
  · decide

/-- Claim C7 (amended): for every zone filled on a non-copper layer,
`fillSingleZone` intersects the smoothed outline with the board outline
when valid, deflates by half the zone's minimum thickness (no epsilon
subtracted), optionally applies hatch patterning, re-inflates by half
the minimum thickness minus epsilon (a smaller amount) unless the zone
strokes its outline at min width or that amount is at most epsilon,
and fractures the result into strictly-simple polygons, skipping all
copper-layer stages (`amendedNonCopper` is that exact call sequence). -/
theorem c7_noncopper_pipeline (z : PipeZone) :
    fillNonCopper z = amendedNonCopper z := rfl

/-! ## Claim C9: fill determinism -/

/-- Claim C9: the per-(zone, layer) fill computation reads only the
zone's fill parameters and the board context, never the zone's mutable
fill state; hence filling twice with unchanged inputs — the second time
with whatever fill state the first pass stored — produces identical
output polygon sets, equal under any polygon-set hash. -/
theorem c9_fill_deterministic (z : PipeZone) (ge : CopperEnv)
    (fl1 fl2 : List (Nat × List Poly)) (hs1 hs2 : List (Nat × Int)) (fi1 fi2 : Bool)
    (hashO : ((PolyTerm × PolyTerm) ⊕ (Region × Region)) → Int) :
    fillSingleZonePipe (setFillState z fl1 hs1 fi1) ge
        = fillSingleZonePipe (setFillState z fl2 hs2 fi2) ge
    ∧ hashO (fillSingleZonePipe (setFillState z fl1 hs1 fi1) ge)
        = hashO (fillSingleZonePipe (setFillState z fl2 hs2 fi2) ge) :=
  ⟨rfl, rfl⟩

end KicadCore
